import Mathlib

/-!
Verification of the JNET-logic compilation engine (src/engine/*.py) against its
specification.  The Python source is shallowly embedded: each Python function
becomes a Lean definition of the same name; dictionaries become insertion-ordered
association lists; Python sets become lists used only through membership;
`None`-able floats (`waterfall_level`, `sibling_priority` — ordinals per the data
model) become `Option Int`; exceptions become `Except String`.  Python string
operations (`strip`, `lower`, `split`) are modelled character-wise over ASCII,
matching their behaviour on the stage-name alphabet; the regex character class
`\d` is modelled as the ASCII digits.
-/

/-- parser.py: StageProps dataclass (name, min-type, detector, optional
waterfall level, optional sibling priority). -/
structure StageProps where
  name : String
  min_type : String
  detector : String
  waterfall_level : Option Int
  sibling_priority : Option Int
deriving DecidableEq, Repr

/-- parser.py: Transition dataclass (from stage, to stage, raw rest-of-skeleton text). -/
structure Transition where
  from_stage : String
  to_stage : String
  rest_of_skeleton : String
deriving DecidableEq, Repr

/-- parser.py: JunctionConfig dataclass.  `stage_props` models the
insertion-ordered dict keyed by stage name (`max_skeleton` raw text is unused by
the engine and omitted). -/
structure JunctionConfig where
  vehicle_anchor : String
  lrt_anchor : String
  skeleton_stages : List String
  transitions : List Transition
  stage_props : List StageProps
deriving DecidableEq, Repr

/-- compiler.py, compile_junction: one output row
(`#`, `From`, `To`, `Template`, `JNET Logic Code`). -/
structure Row where
  row_num : Nat
  from_stage : String
  to_stage : String
  template : String
  logic_code : String
deriving DecidableEq, Repr

/-- Lookup in the stage-properties dict: `stage_props.get(name)`. -/
def spGet : List StageProps → String → Option StageProps
  | [], _ => none
  | p :: rest, name => if p.name = name then some p else spGet rest name

/-- Python `str.strip()` on a character list (whitespace at both ends removed). -/
def pyStripChars (cs : List Char) : List Char :=
  ((cs.dropWhile Char.isWhitespace).reverse.dropWhile Char.isWhitespace).reverse

/-- Python `str.strip()`. -/
def pyStrip (s : String) : String :=
  String.mk (pyStripChars s.data)

/-- Python `str.lower()` (ASCII case folding). -/
def pyLower (s : String) : String :=
  String.mk (s.data.map Char.toLower)

/-- Python `str.split(sep)` for a one-character separator: splits at every
occurrence, keeping empty pieces (`"".split('-') == ['']`). -/
def splitOnChar (sep : Char) : List Char → List (List Char)
  | [] => [[]]
  | c :: cs =>
    let r := splitOnChar sep cs
    if c = sep then [] :: r
    else
      match r with
      | [] => [[c]]
      | p :: ps => (c :: p) :: ps

/-- config.py, LRT_PATTERN `^L\d+$`: the letter L followed by one or more digits. -/
def is_lrt (stage : String) : Bool :=
  match stage.data with
  | 'L' :: rest => rest ≠ [] && rest.all Char.isDigit
  | _ => false

/-- config.py, LIG_PATTERN `^A[3-9]\d$`: the letter A, a digit 3–9, one more digit. -/
def is_lig (stage : String) : Bool :=
  match stage.data with
  | ['A', c1, c2] => ('3' ≤ c1 && c1 ≤ '9') && c2.isDigit
  | _ => false

/-- config.py, is_vehicle. -/
def is_vehicle (stage : String) : Bool :=
  !is_lrt stage && !is_lig stage

/-- config.py, classify_stage. -/
def classify_stage (stage lrt_anchor : String) : String :=
  if is_lrt stage then (if stage = lrt_anchor then "lrt_anchor" else "lrt_entry")
  else if is_lig stage then "lig"
  else "vehicle"

/-- config.py, TEMPLATE_MAP: (from_type, to_type) → template letter. -/
def TEMPLATE_MAP : List ((String × String) × String) :=
  [(("vehicle", "vehicle"), "A"),
   (("vehicle", "lrt_entry"), "B"),
   (("vehicle", "lrt_anchor"), "C"),
   (("lrt", "vehicle"), "D"),
   (("lrt", "lig"), "E"),
   (("lig", "vehicle"), "F"),
   (("lrt", "lrt"), "G"),
   (("lrt", "lrt_anchor"), "G")]

/-- config.py, get_template: normalises lrt_entry/lrt_anchor to `lrt` on the
from side only, then looks the pair up in TEMPLATE_MAP; a missing key raises
ValueError (modelled as `Except.error`). -/
def get_template (from_stage to_stage lrt_anchor : String) : Except String String :=
  let from_type := classify_stage from_stage lrt_anchor
  let to_type := classify_stage to_stage lrt_anchor
  let from_key := if from_type = "lrt_entry" || from_type = "lrt_anchor" then "lrt" else from_type
  let to_key := to_type
  match TEMPLATE_MAP.lookup (from_key, to_key) with
  | some t => Except.ok t
  | none => Except.error s!"No template for transition ({from_stage}:{from_type}) → ({to_stage}:{to_type})"

/-- topology.py: the adjacency structure `dict[str, list[str]]` as an
insertion-ordered association list. -/
abbrev Graph := List (String × List String)

/-- Python `graph.get(stage, [])`: first entry wins (keys are unique by construction). -/
def graphGet : Graph → String → List String
  | [], _ => []
  | (k, vs) :: rest, s => if k = s then vs else graphGet rest s

/-- topology.py, build_graph inner step: `graph.setdefault(from_, [])` and append
`to` if not already present. -/
def addEdge : Graph → String → String → Graph
  | [], f, t => [(f, [t])]
  | (k, vs) :: rest, f, t =>
    if k = f then (k, if t ∈ vs then vs else vs ++ [t]) :: rest
    else (k, vs) :: addEdge rest f t

/-- topology.py, build_graph. -/
def build_graph (transitions : List Transition) : Graph :=
  transitions.foldl (fun g t => addEdge g t.from_stage t.to_stage) []

/-- topology.py, apply_suffix: stage name plus its min-type, defaulting to `min`. -/
def apply_suffix (stage : String) (stage_props : List StageProps) : String :=
  match spGet stage_props stage with
  | some props => stage ++ props.min_type
  | none => stage ++ "min"

/-- topology.py, parse_rest_of_skeleton (its stage_props/anchor parameters are
unused in the source body): `'B-C-A0' → ['B','C','A0']`, the case-insensitive
literals `end of skeleton`/`end` (or blank) → `[]`. -/
def parse_rest_of_skeleton (rest_str : String) : List String :=
  let rest := pyStrip rest_str
  if rest = "" || pyLower rest = "end of skeleton" || pyLower rest = "end" then []
  else
    let replaced := rest.data.map (fun c => if c = '→' then '-' else c)
    let parts := (splitOnChar '-' replaced).map (fun p => pyStrip (String.mk p))
    parts.filter (fun p => decide (p ≠ ""))

/-- topology.py, find_outgoing_lrts: one-hop LRT neighbours in adjacency order. -/
def find_outgoing_lrts (stage : String) (graph : Graph) : List String :=
  (graphGet graph stage).filter is_lrt

/-- topology.py, lrt_to_j: `'L39' → 'jL39'`. -/
def lrt_to_j (lrt_stage : String) : String :=
  "j" ++ lrt_stage

/-- All stage names occurring in the adjacency structure (proof device used to
measure the unexplored part of the graph; not part of the source). -/
def graphNodes : Graph → List String
  | [] => []
  | (k, vs) :: rest => k :: vs ++ graphNodes rest

/-- Number of graph nodes not yet visited (termination measure for the BFS). -/
def unseenCount (g : Graph) (vis : List String) : Nat :=
  ((graphNodes g).filter (fun x => decide (x ∉ vis))).length

/-- find_nearest_lrt_from_stage, `if dist >= nearest_dist: continue`
(`nearest_dist` starts as +infinity, modelled by `none`). -/
def pruneCheck (nearest : Option (String × Nat)) (dist : Nat) : Bool :=
  match nearest with
  | none => false
  | some p => p.2 ≤ dist

/-- find_nearest_lrt_from_stage, the `for neighbour in graph.get(current, [])`
body: threads the visited set, the nodes appended to the queue (with their
distances), and the running nearest LRT. -/
def bfs_scan : List String → Nat → List String → List (String × Nat) →
    Option (String × Nat) → List String × List (String × Nat) × Option (String × Nat)
  | [], _, visited, acc, nearest => (visited, acc, nearest)
  | n :: ns, dist, visited, acc, nearest =>
    if n ∈ visited then bfs_scan ns dist visited acc nearest
    else if is_lrt n then
      let nearest' :=
        match nearest with
        | none => some (n, dist + 1)
        | some (m, nd) => if dist + 1 < nd then some (n, dist + 1) else some (m, nd)
      bfs_scan ns dist (n :: visited) acc nearest'
    else bfs_scan ns dist (n :: visited) (acc ++ [(n, dist + 1)]) nearest

/-- find_nearest_lrt_from_stage, the `while queue` loop. -/
def bfs_loop (g : Graph) (visited : List String) (queue : List (String × Nat))
    (nearest : Option (String × Nat)) : Option String :=
  match queue with
  | [] => nearest.map Prod.fst
  | (current, dist) :: qrest =>
    if pruneCheck nearest dist then
      bfs_loop g visited qrest nearest
    else
      let s := bfs_scan (graphGet g current) dist visited [] nearest
      bfs_loop g s.1 (qrest ++ s.2.1) s.2.2
termination_by unseenCount g visited + queue.length
decreasing_by
  · simp only [List.length_cons]
    omega
  · have hsub : ∀ gg : Graph, ∀ c : String, ∀ n ∈ graphGet gg c, n ∈ graphNodes gg := by
      intro gg c
      induction gg with
      | nil => intro n hn; simp [graphGet] at hn
      | cons kv rest ih =>
        intro n hn
        obtain ⟨k, vs⟩ := kv
        simp only [graphGet] at hn
        by_cases hk : k = c
        · simp [hk] at hn
          simp [graphNodes, hn]
        · simp [hk] at hn
          simp [graphNodes, ih n hn]
    have hmono : ∀ (n : String) (vis : List String),
        unseenCount g (n :: vis) ≤ unseenCount g vis := by
      intro n vis
      apply List.Sublist.length_le
      apply List.monotone_filter_right
      intro a ha
      simp only [decide_eq_true_eq, List.mem_cons, not_or] at *
      exact ha.2
    have hstrict : ∀ (n : String) (vis : List String), n ∈ graphNodes g → n ∉ vis →
        unseenCount g (n :: vis) < unseenCount g vis := by
      intro n vis hng hnv
      have hsubl : List.Sublist ((graphNodes g).filter (fun x => decide (x ∉ n :: vis)))
          ((graphNodes g).filter (fun x => decide (x ∉ vis))) := by
        apply List.monotone_filter_right
        intro a ha
        simp only [decide_eq_true_eq, List.mem_cons, not_or] at *
        exact ha.2
      have hlen := hsubl.length_le
      rcases Nat.lt_or_ge (((graphNodes g).filter (fun x => decide (x ∉ n :: vis))).length)
          (((graphNodes g).filter (fun x => decide (x ∉ vis))).length) with h | h
      · exact h
      · exfalso
        have heq := hsubl.eq_of_length (Nat.le_antisymm hlen h)
        have hn2 : n ∈ (graphNodes g).filter (fun x => decide (x ∉ vis)) := by
          simp [List.mem_filter, hng, hnv]
        rw [← heq] at hn2
        simp [List.mem_filter] at hn2
    have key : ∀ (ns : List String), (∀ n ∈ ns, n ∈ graphNodes g) →
        ∀ (vis : List String) (acc : List (String × Nat)) (nr : Option (String × Nat)),
        unseenCount g (bfs_scan ns dist vis acc nr).1 +
          (bfs_scan ns dist vis acc nr).2.1.length ≤ unseenCount g vis + acc.length := by
      intro ns
      induction ns with
      | nil => intro _ vis acc nr; simp [bfs_scan]
      | cons n ns ih =>
        intro hmem vis acc nr
        have hns : ∀ m ∈ ns, m ∈ graphNodes g := fun m hm => hmem m (List.mem_cons_of_mem _ hm)
        simp only [bfs_scan]
        by_cases hv : n ∈ vis
        · simp only [hv, if_true]
          exact ih hns vis acc nr
        · simp only [hv, if_false]
          by_cases hl : is_lrt n
          · simp only [hl, if_true]
            calc unseenCount g (bfs_scan ns dist (n :: vis) acc _).1 +
                  (bfs_scan ns dist (n :: vis) acc _).2.1.length
                ≤ unseenCount g (n :: vis) + acc.length := ih hns (n :: vis) acc _
              _ ≤ unseenCount g vis + acc.length :=
                  Nat.add_le_add_right (hmono n vis) _
          · simp only [hl, if_false]
            calc unseenCount g (bfs_scan ns dist (n :: vis) (acc ++ [(n, dist + 1)]) nr).1 +
                  (bfs_scan ns dist (n :: vis) (acc ++ [(n, dist + 1)]) nr).2.1.length
                ≤ unseenCount g (n :: vis) + (acc ++ [(n, dist + 1)]).length :=
                  ih hns (n :: vis) (acc ++ [(n, dist + 1)]) nr
              _ = unseenCount g (n :: vis) + acc.length + 1 := by
                  simp only [List.length_append, List.length_cons, List.length_nil]
                  omega
              _ ≤ unseenCount g vis + acc.length :=
                  Nat.succ_le_of_lt (Nat.add_lt_add_right
                    (hstrict n vis (hmem n (List.mem_cons_self n ns)) hv) _)
    have hk := key (graphGet g current) (hsub g current) visited [] nearest
    simp only [List.length_nil, Nat.add_zero] at hk
    simp only [List.length_append, List.length_cons]
    omega

/-- topology.py, find_nearest_lrt_from_stage: BFS from `stage` for the nearest
LRT stage by hop count (the `lrt_anchor` parameter is unused in the source body). -/
def find_nearest_lrt_from_stage (stage : String) (graph : Graph)
    (lrt_anchor : String) : Option String :=
  bfs_loop graph [stage] [(stage, 0)] none

/-- topology.py, validate_topology: every to-stage other than the vehicle anchor
must also appear as a from-stage; the first violation raises ValueError naming
the offending stage. -/
def validate_topology (transitions : List Transition) (vehicle_anchor : String) :
    Except String Unit :=
  let from_stages := transitions.map (fun t => t.from_stage)
  match transitions.find? (fun t =>
      decide (t.to_stage ≠ vehicle_anchor ∧ t.to_stage ∉ from_stages)) with
  | some t => Except.error ("Topology dead end: stage '" ++ t.to_stage ++
      "' appears as a target but has no outgoing transitions. Check the Inter-Stages table.")
  | none => Except.ok ()

/-- Python's stable `sorted(..., key=...)`: insertion step placing `x` before the
first element whose key is not smaller (equal keys keep first-inserted order). -/
def insertSortedBy {α : Type} (key : α → Int) (x : α) : List α → List α
  | [] => [x]
  | y :: ys => if key y < key x then y :: insertSortedBy key x ys else x :: y :: ys

/-- Python's stable `sorted(..., key=...)` (Timsort is stable; this insertion
sort is stable for the same reason: equal keys preserve input order). -/
def sortByKey {α : Type} (key : α → Int) (l : List α) : List α :=
  l.foldr (insertSortedBy key) []

/-- demand.py, build_demand: the three-rule demand-string synthesizer.
Rule 2's sort key is the sibling priority (always present in the filtered list,
so the `getD 0` default is never consulted); rule 3's key models Python's
`p.sibling_priority or 99`, under which both `None` and the falsy priority `0`
become 99. -/
def build_demand (target from_stage : String) (stage_props : List StageProps) : String :=
  let target_props := spGet stage_props target
  let from_props := spGet stage_props from_stage
  let parts1 : List String :=
    match target_props with
    | some tp => if tp.detector ≠ "" then ["IsActive(" ++ tp.detector ++ ")"] else []
    | none => []
  let parts2 : List String :=
    match target_props with
    | some tp =>
      match tp.waterfall_level, tp.sibling_priority with
      | some target_level, some target_priority =>
        let siblings := sortByKey (fun p => p.sibling_priority.getD 0)
          (stage_props.filter (fun p =>
            match p.sibling_priority with
            | none => false
            | some pr => decide (p.waterfall_level = some target_level ∧
                pr < target_priority ∧ p.name ≠ from_stage ∧ p.name ≠ target ∧
                p.detector ≠ "")))
        siblings.map (fun p => "IsInactive(" ++ p.detector ++ ")")
      | _, _ => []
    | none => []
  let target_level : Option Int :=
    match target_props with | some tp => tp.waterfall_level | none => none
  let from_level : Option Int :=
    match from_props with | some fp => fp.waterfall_level | none => none
  let parts12 := parts1 ++ parts2
  let parts :=
    match from_level, target_level with
    | some fl, some tl =>
      if fl - tl = 1 then
        let below_stages := sortByKey
          (fun p =>
            match p.sibling_priority with
            | some pr => if pr = 0 then 99 else pr
            | none => 99)
          (stage_props.filter (fun p =>
            decide (p.waterfall_level = some (fl + 1) ∧ p.detector ≠ "")))
        below_stages.foldl (fun acc bp =>
          let inact := "IsInactive(" ++ bp.detector ++ ")"
          if inact ∈ acc then acc else acc ++ [inact]) parts12
      else parts12
    | _, _ => parts12
  String.intercalate " and " parts

/-- templates.py, template_a (vehicle → vehicle): two variants selected by
whether the target has an outgoing LRT edge. -/
def template_a (current gt_func demand at_target at_jl bypass_wtg force_wtg : String)
    (has_outgoing_lrt : Bool) : String :=
  let at_greater :=
    if has_outgoing_lrt then
      s!"AT_greater(1, ge, {current}_{at_target}_{at_jl}) and EG_{current}=true"
    else
      s!"EG_{current}=true and AT_greater(1, gt, {current}_{at_target}_{at_jl})"
  let at_less :=
    s!"AT_less(1, le, {current}_{at_target}_{at_jl}) and WTG({current}_{bypass_wtg})=false"
  let core :=
    s!"(PL=0 and EG_{current}=true) or (PL>0 and GT({current}) >= {gt_func} and (({at_greater}) or ({at_less}))) or WTG({current}_{force_wtg})=false"
  if demand ≠ "" then s!"{demand} and ({core})" else core

/-- templates.py, template_b (vehicle → LRT entry). -/
def template_b (current lrt_target gt_func wtg_rest jlrt_target nv_at_path : String) : String :=
  s!"WTG({current}_{lrt_target}_{wtg_rest})=true and ((GT({current}) >= {gt_func} and AT_less(0, le, {current}_{jlrt_target})) or (EG_{current}=true and AT_less(0, le, {current}_{nv_at_path})))"

/-- templates.py, template_c (vehicle → LRT anchor). -/
def template_c (current lrt_anchor gt_func j_lrt_anchor : String) : String :=
  s!"WTG({current}_{lrt_anchor})=true and (GT({current}) >= {gt_func} and AT_less(0, le, {current}_{j_lrt_anchor}))"

/-- templates.py, template_d (LRT → vehicle). -/
def template_d (current target at_path wtg_path demand : String) : String :=
  let close := s!"CloseL({target}) and LIG({target})=false"
  let inner := s!"(AT_greater(1, ge, {current}_{at_path}) or WTG({current}_DQ_{wtg_path})=false)"
  if demand ≠ "" then s!"{close} and {demand} and {inner}" else s!"{close} and {inner}"

/-- templates.py, template_e (LRT → Lig stage). -/
def template_e (current lig gt_func at_path wtg_path : String) : String :=
  s!"CloseL({lig}) and LIG({lig})=true and ((GT({current}) >= {gt_func} and AT_greater(1, ge, {current}_{at_path})) or WTG({current}_DQ_{wtg_path})=false)"

/-- templates.py, template_f (Lig → vehicle): the demand string, or NO_LOGIC. -/
def template_f (demand : String) : String :=
  if demand ≠ "" then demand else "NO_LOGIC"

/-- templates.py, template_g (LRT → LRT chaining). -/
def template_g (current lrt_target jlrt_target nv_at_path : String) : String :=
  s!"(EG_{current}=true and AT_less(0, le, {current}_{jlrt_target})) or (WTG({current}_{lrt_target})=true and AT_less(0, ls, {current}_{nv_at_path}))"

/-- compiler.py, _gt_func. -/
def _gt_func (stage : String) (stage_props : List StageProps) : String :=
  match spGet stage_props stage with
  | some props => if props.min_type = "cpn" then s!"GTcpmin({stage})" else s!"GTmin_{stage}"
  | none => s!"GTmin_{stage}"

/-- compiler.py, _tail_str: last element bare, all others suffixed, except LRT
stages, Lig stages and the literal `DQ`, which are always bare. -/
def _tail_str (tail_stages : List String) (stage_props : List StageProps) : String :=
  match tail_stages with
  | [] => ""
  | [x] => x
  | _ =>
    String.intercalate "_" (tail_stages.enum.map (fun is =>
      if is.1 = tail_stages.length - 1 || is_lrt is.2 || is_lig is.2 || is.2 = "DQ" then is.2
      else apply_suffix is.2 stage_props))

/-- compiler.py, _find_lrt_current: directly reachable LRT, preferring
non-anchor entries (`lrts[0]` accesses are guarded by the emptiness test). -/
def _find_lrt_current (from_s : String) (graph : Graph) (lrt_anchor : String) : Option String :=
  let lrts := find_outgoing_lrts from_s graph
  if lrts = [] then none
  else
    let non_anchor := lrts.filter (fun l => decide (l ≠ lrt_anchor))
    match non_anchor with
    | x :: _ => some x
    | [] =>
      match lrts with
      | y :: _ => some y
      | [] => none

/-- compiler.py, _bypass_wtg_path (the `rest[1:] if rest else []` slice is
`List.tail`, which is also `[]` on `[]`). -/
def _bypass_wtg_path (from_s lrt_current lrt_anchor : String) (cfg : JunctionConfig)
    (graph : Graph) : String :=
  let sp := cfg.stage_props
  let va := cfg.vehicle_anchor
  if lrt_current = lrt_anchor then lrt_anchor
  else
    match cfg.transitions.find? (fun t =>
        decide (t.from_stage = from_s ∧ t.to_stage = lrt_current)) with
    | some t =>
      let rest := parse_rest_of_skeleton t.rest_of_skeleton
      let tail := rest.tail
      let tail_s := _tail_str tail sp
      if tail_s ≠ "" then s!"{lrt_current}_DQ_{tail_s}" else s!"{lrt_current}_DQ_{va}"
    | none =>
      let vehicle_neighbours := (graphGet graph lrt_current).filter
        (fun n => !is_lrt n && !is_lig n)
      match vehicle_neighbours with
      | first :: _ =>
        (match cfg.transitions.find? (fun t =>
            decide (t.from_stage = lrt_current ∧ t.to_stage = first)) with
         | some t =>
           let rest := parse_rest_of_skeleton t.rest_of_skeleton
           let tail := rest.tail
           let tail_s := _tail_str tail sp
           let nv_s := apply_suffix first sp
           if tail_s ≠ "" then s!"{lrt_current}_DQ_{nv_s}_{tail_s}"
           else s!"{lrt_current}_DQ_{nv_s}_{va}"
         | none => s!"{lrt_current}_DQ_{va}")
      | [] => s!"{lrt_current}_DQ_{va}"

/-- Python `dict.fromkeys(...)` key deduplication, worker: keeps the first
occurrence of each element, in order (`seen` collects what was already kept). -/
def dedupFirstSeenAux (seen : List String) : List String → List String
  | [] => []
  | x :: xs =>
    if x ∈ seen then dedupFirstSeenAux seen xs
    else x :: dedupFirstSeenAux (x :: seen) xs

/-- Python `dict.fromkeys(...)` key deduplication: keeps the first occurrence of
each element, in order. -/
def dedupFirstSeen (l : List String) : List String :=
  dedupFirstSeenAux [] l

/-- compiler.py, _find_next_vehicle_in_skeleton: vehicle neighbours other than
the anchor, sorted stably by skeleton position (999 when absent; Python's
`list.index` with `except ValueError`), raw adjacency order as tiebreak; the
anchor is the fallback.  The `headD` default is never consulted (sorting a
non-empty list is non-empty). -/
def _find_next_vehicle_in_skeleton (lrt_stage : String) (graph : Graph)
    (cfg : JunctionConfig) : String :=
  let va := cfg.vehicle_anchor
  let skeleton := cfg.skeleton_stages
  let vehicle_nbrs := (graphGet graph lrt_stage).filter
    (fun n => !is_lrt n && !is_lig n && decide (n ≠ va))
  if vehicle_nbrs = [] then va
  else
    let skeleton_unique := dedupFirstSeen skeleton
    let skeleton_pos : String → Int := fun s =>
      match skeleton_unique.findIdx? (fun x => decide (x = s)) with
      | some i => (i : Int)
      | none => 999
    (sortByKey skeleton_pos vehicle_nbrs).headD va

/-- compiler.py, _dispatch: selects and fills the template; the final
unknown-letter raise is modelled as `Except.error` (unreachable for letters
produced by get_template). -/
def _dispatch (template : String) (from_s to_s : String) (tail_stages : List String)
    (graph : Graph) (cfg : JunctionConfig) : Except String String :=
  let sp := cfg.stage_props
  let va := cfg.vehicle_anchor
  let la := cfg.lrt_anchor
  let gt := _gt_func from_s sp
  let demand := build_demand to_s from_s sp
  if template = "F" then Except.ok (template_f demand)
  else if template = "A" then
    let at_target := apply_suffix to_s sp
    let nearest_lrt0 := find_nearest_lrt_from_stage to_s graph la
    let has_outgoing0 : Bool := decide (find_outgoing_lrts to_s graph ≠ [])
    let nearest_lrt :=
      match nearest_lrt0 with
      | none => find_nearest_lrt_from_stage from_s graph la
      | some l => some l
    let has_outgoing := match nearest_lrt0 with | none => false | some _ => has_outgoing0
    let jl_nearest := match nearest_lrt with | some l => lrt_to_j l | none => "jL_UNKNOWN"
    let lrt_current :=
      match _find_lrt_current from_s graph la with
      | some l => l
      | none => match nearest_lrt with | some l => l | none => la
    let bypass := _bypass_wtg_path from_s lrt_current la cfg graph
    let tail_s := _tail_str tail_stages sp
    let force := if tail_stages ≠ [] then at_target ++ "_" ++ tail_s else to_s
    Except.ok (template_a from_s gt demand at_target jl_nearest bypass force has_outgoing)
  else if template = "B" then
    let next_vehicle := match tail_stages with | x :: _ => x | [] => va
    let nv_suffixed := apply_suffix next_vehicle sp
    let lrts_from_nv := find_outgoing_lrts next_vehicle graph
    let j_next_lrt := match lrts_from_nv with | x :: _ => lrt_to_j x | [] => lrt_to_j la
    let tail_s := _tail_str tail_stages sp
    let wtg_rest := if tail_s ≠ "" then "DQ_" ++ tail_s else "DQ_" ++ va
    let nv_at_path := nv_suffixed ++ "_" ++ j_next_lrt
    Except.ok (template_b from_s to_s gt wtg_rest (lrt_to_j to_s) nv_at_path)
  else if template = "C" then
    Except.ok (template_c from_s la gt (lrt_to_j la))
  else if template = "D" then
    let nearest_lrt :=
      match find_nearest_lrt_from_stage to_s graph la with
      | none => la
      | some l => l
    let jl_next := lrt_to_j nearest_lrt
    let at_target_s := apply_suffix to_s sp
    let at_path := at_target_s ++ "_" ++ jl_next
    let tail_s := _tail_str tail_stages sp
    let wtg_path := if tail_stages ≠ [] then at_target_s ++ "_" ++ tail_s else to_s
    Except.ok (template_d from_s to_s at_path wtg_path demand)
  else if template = "E" then
    let next_vehicle := match tail_stages with | x :: _ => x | [] => va
    let nv_suffixed := apply_suffix next_vehicle sp
    let lrts_from_nv := find_outgoing_lrts next_vehicle graph
    let j_next_lrt := match lrts_from_nv with | x :: _ => lrt_to_j x | [] => lrt_to_j la
    let at_path := to_s ++ "_" ++ nv_suffixed ++ "_" ++ j_next_lrt
    let tail_s := _tail_str tail_stages sp
    let wtg_path := if tail_s ≠ "" then to_s ++ "_" ++ tail_s else to_s ++ "_" ++ va
    Except.ok (template_e from_s to_s gt at_path wtg_path)
  else if template = "G" then
    let jlrt_target := lrt_to_j to_s
    let next_vehicle := _find_next_vehicle_in_skeleton from_s graph cfg
    let nv_suffixed := apply_suffix next_vehicle sp
    let nv_at_path := nv_suffixed ++ "_" ++ jlrt_target
    Except.ok (template_g from_s to_s jlrt_target nv_at_path)
  else Except.error s!"Unknown template letter: {template}"

/-- compiler.py, compile_junction's `for row_num, trans in enumerate(...)` loop.
`get_template` is called outside the per-row try/except, so its failure aborts
the whole batch; only `_dispatch` failures are rendered as `ERROR: ` rows (the
source also appends a runtime traceback dump after the message there; every
`_dispatch` code path is total, so the branch is unreachable). -/
def compile_rows (cfg : JunctionConfig) (graph : Graph) (row_num : Nat) :
    List Transition → Except String (List Row)
  | [] => Except.ok []
  | tr :: rest => do
    let template_letter ← get_template tr.from_stage tr.to_stage cfg.lrt_anchor
    let rest_stages := parse_rest_of_skeleton tr.rest_of_skeleton
    let tail_stages := rest_stages.tail
    let code :=
      match _dispatch template_letter tr.from_stage tr.to_stage tail_stages graph cfg with
      | Except.ok c => c
      | Except.error e => "ERROR: " ++ e
    let rows ← compile_rows cfg graph (row_num + 1) rest
    Except.ok ({ row_num := row_num, from_stage := tr.from_stage,
                 to_stage := tr.to_stage, template := template_letter,
                 logic_code := code } :: rows)

/-- compiler.py, compile_junction: whole-graph validation first (fatal on
failure, no rows), then one row per transition, numbered from 2. -/
def compile_junction (cfg : JunctionConfig) : Except String (List Row) := do
  let _ ← validate_topology cfg.transitions cfg.vehicle_anchor
  let graph := build_graph cfg.transitions
  compile_rows cfg graph 2 cfg.transitions

/-- Nodes reachable from `w` by walks of exactly `k` edges (specification-side
notion of hop count; duplicates irrelevant, used through membership). -/
def reachList (g : Graph) (w : String) : Nat → List String
  | 0 => [w]
  | k + 1 => (graphGet g w).flatMap (fun n => reachList g n k)

/-- Specification-side neighbour scan: first fresh LRT neighbour in adjacency
order is the discovery (with its hop count); fresh non-LRT neighbours are
collected for the queue. -/
def scanFirstLrt : List String → Nat → List String → List (String × Nat) →
    List String × List (String × Nat) × Option (String × Nat)
  | [], _, visited, acc => (visited, acc, none)
  | n :: ns, dist, visited, acc =>
    if n ∈ visited then scanFirstLrt ns dist visited acc
    else if is_lrt n then (visited, acc, some (n, dist + 1))
    else scanFirstLrt ns dist (n :: visited) (acc ++ [(n, dist + 1)])

/-- Specification-side breadth-first search: pop the queue in order, scan
neighbours in adjacency order, and answer with the first LRT stage ever
discovered (together with its hop count).  This is the claim's "first one
discovered in BFS order". -/
def firstLrtSearch (g : Graph) (visited : List String)
    (queue : List (String × Nat)) : Option (String × Nat) :=
  match queue with
  | [] => none
  | (current, dist) :: qrest =>
    match hscan : scanFirstLrt (graphGet g current) dist visited [] with
    | (_, _, some ld) => some ld
    | (vis', newq, none) => firstLrtSearch g vis' (qrest ++ newq)
termination_by unseenCount g visited + queue.length
decreasing_by
  have hsub : ∀ gg : Graph, ∀ c : String, ∀ n ∈ graphGet gg c, n ∈ graphNodes gg := by
    intro gg c
    induction gg with
    | nil => intro n hn; simp [graphGet] at hn
    | cons kv rest ih =>
      intro n hn
      obtain ⟨k, vs⟩ := kv
      simp only [graphGet] at hn
      by_cases hk : k = c
      · simp [hk] at hn
        simp [graphNodes, hn]
      · simp [hk] at hn
        simp [graphNodes, ih n hn]
  have hstrict : ∀ (n : String) (vis : List String), n ∈ graphNodes g → n ∉ vis →
      unseenCount g (n :: vis) < unseenCount g vis := by
    intro n vis hng hnv
    have hsubl : List.Sublist ((graphNodes g).filter (fun x => decide (x ∉ n :: vis)))
        ((graphNodes g).filter (fun x => decide (x ∉ vis))) := by
      apply List.monotone_filter_right
      intro a ha
      simp only [decide_eq_true_eq, List.mem_cons, not_or] at *
      exact ha.2
    rcases Nat.lt_or_ge (((graphNodes g).filter (fun x => decide (x ∉ n :: vis))).length)
        (((graphNodes g).filter (fun x => decide (x ∉ vis))).length) with h | h
    · exact h
    · exfalso
      have heq := hsubl.eq_of_length (Nat.le_antisymm hsubl.length_le h)
      have hn2 : n ∈ (graphNodes g).filter (fun x => decide (x ∉ vis)) := by
        simp [List.mem_filter, hng, hnv]
      rw [← heq] at hn2
      simp [List.mem_filter] at hn2
  have key : ∀ (ns : List String), (∀ n ∈ ns, n ∈ graphNodes g) →
      ∀ (vis : List String) (acc : List (String × Nat)),
      unseenCount g (scanFirstLrt ns dist vis acc).1 +
        (scanFirstLrt ns dist vis acc).2.1.length ≤ unseenCount g vis + acc.length := by
    intro ns
    induction ns with
    | nil => intro _ vis acc; simp [scanFirstLrt]
    | cons n ns ih =>
      intro hmem vis acc
      have hns : ∀ m ∈ ns, m ∈ graphNodes g := fun m hm => hmem m (List.mem_cons_of_mem _ hm)
      simp only [scanFirstLrt]
      by_cases hv : n ∈ vis
      · simp only [hv, if_true]
        exact ih hns vis acc
      · simp only [hv, if_false]
        by_cases hl : is_lrt n
        · simp only [hl, if_true]
          exact Nat.le_refl _
        · simp only [hl, if_false]
          calc unseenCount g (scanFirstLrt ns dist (n :: vis) (acc ++ [(n, dist + 1)])).1 +
                (scanFirstLrt ns dist (n :: vis) (acc ++ [(n, dist + 1)])).2.1.length
              ≤ unseenCount g (n :: vis) + (acc ++ [(n, dist + 1)]).length :=
                ih hns (n :: vis) (acc ++ [(n, dist + 1)])
            _ = unseenCount g (n :: vis) + acc.length + 1 := by
                simp only [List.length_append, List.length_cons, List.length_nil]
                omega
            _ ≤ unseenCount g vis + acc.length :=
                Nat.succ_le_of_lt (Nat.add_lt_add_right
                  (hstrict n vis (hmem n (List.mem_cons_self n ns)) hv) _)
  have hk := key (graphGet g current) (hsub g current) visited []
  rw [hscan] at hk
  simp only [List.length_nil, Nat.add_zero] at hk
  simp only [List.length_append, List.length_cons]
  omega

/-- Invariant carried by the BFS induction: the start is visited, queue nodes
are visited, queue entries are reachable at their recorded hop count, every
visited node is still queued or fully expanded, no LRT other than the start is
visited, queue distances are sorted and spread by at most one, and every
reachable node is visited or covered by a queue entry within its hop budget. -/
def QueueInv (g : Graph) (s : String) (vis : List String)
    (q : List (String × Nat)) : Prop :=
  s ∈ vis ∧
  (∀ e ∈ q, e.1 ∈ vis) ∧
  (∀ e ∈ q, e.1 ∈ reachList g s e.2) ∧
  (∀ u ∈ vis, (∃ e ∈ q, e.1 = u) ∨ (∀ n ∈ graphGet g u, n ∈ vis)) ∧
  (∀ u ∈ vis, is_lrt u = true → u = s) ∧
  List.Pairwise (fun a b : String × Nat => a.2 ≤ b.2) q ∧
  (∀ a ∈ q, ∀ b ∈ q, a.2 ≤ b.2 + 1) ∧
  (∀ v m, v ∈ reachList g s m →
    v ∈ vis ∨ ∃ e ∈ q, ∃ j, v ∈ reachList g e.1 j ∧ e.2 + j ≤ m)

/-- First element of minimal key (ties keep the earliest element):
specification-side reading of "earliest-appearing … in the canonical skeleton
cycle order, raw adjacency order as the final tiebreak". -/
def firstMinBy {α : Type} (key : α → Int) : List α → Option α
  | [] => none
  | a :: l =>
    match firstMinBy key l with
    | none => some a
    | some m => if key m < key a then some m else some a

/-- Position of a stage in the deduplicated canonical skeleton cycle
(999 when absent, as in the source's `except ValueError` fallback). -/
def skeletonPosOf (cfg : JunctionConfig) (s : String) : Int :=
  match (dedupFirstSeen cfg.skeleton_stages).findIdx? (fun x => decide (x = s)) with
  | some i => (i : Int)
  | none => 999

/-- C8's claim, taken at its word: the earliest-appearing vehicle-classified
graph successor in canonical skeleton order (no exclusion of the vehicle
anchor), stages absent from the skeleton last, raw adjacency order as final
tiebreak.  The anchor stands in when there is no vehicle successor at all (the
claim is silent there; the comparison never exercises that case). -/
def claimedNextVehicleSpec (lrt_stage : String) (graph : Graph)
    (cfg : JunctionConfig) : String :=
  let candidates := (graphGet graph lrt_stage).filter is_vehicle
  match firstMinBy (skeletonPosOf cfg) candidates with
  | some v => v
  | none => cfg.vehicle_anchor

/-- The amended next-vehicle selection: as the claim, but vehicle-classified
successors EQUAL TO THE VEHICLE ANCHOR are excluded, and the anchor is the
fallback when no other vehicle successor exists. -/
def amendedNextVehicleSpec (lrt_stage : String) (graph : Graph)
    (cfg : JunctionConfig) : String :=
  let candidates := (graphGet graph lrt_stage).filter
    (fun n => is_vehicle n && decide (n ≠ cfg.vehicle_anchor))
  match firstMinBy (skeletonPosOf cfg) candidates with
  | some v => v
  | none => cfg.vehicle_anchor

/-- Steps 1–2 of build_demand (the IsActive part and the higher-priority
sibling parts), split out so that the waterfall step 3 can be stated on top of
them. -/
def demandParts12 (target from_stage : String) (stage_props : List StageProps) :
    List String :=
  let target_props := spGet stage_props target
  let parts1 : List String :=
    match target_props with
    | some tp => if tp.detector ≠ "" then ["IsActive(" ++ tp.detector ++ ")"] else []
    | none => []
  let parts2 : List String :=
    match target_props with
    | some tp =>
      match tp.waterfall_level, tp.sibling_priority with
      | some target_level, some target_priority =>
        let siblings := sortByKey (fun p => p.sibling_priority.getD 0)
          (stage_props.filter (fun p =>
            match p.sibling_priority with
            | none => false
            | some pr => decide (p.waterfall_level = some target_level ∧
                pr < target_priority ∧ p.name ≠ from_stage ∧ p.name ≠ target ∧
                p.detector ≠ "")))
        siblings.map (fun p => "IsInactive(" ++ p.detector ++ ")")
      | _, _ => []
    | none => []
  parts1 ++ parts2

/-- Append each part in order unless an identical part is already present
(build_demand's step-3 fold). -/
def appendNewParts (base : List String) (parts : List String) : List String :=
  parts.foldl (fun acc x => if x ∈ acc then acc else acc ++ [x]) base

/-- The waterfall step's sort key: the sibling priority, except that an
undefined priority and the falsy priority 0 both become 99
(Python's `p.sibling_priority or 99`). -/
def rule3Key (p : StageProps) : Int :=
  match p.sibling_priority with
  | some pr => if pr = 0 then 99 else pr
  | none => 99

/-- C4's stage properties: A at level 0; B, B1, B2 siblings at level 1 with
priorities 1, 2, 3 and detectors Pc, Phg, none. -/
def spC4 : List StageProps :=
  [⟨"A", "min", "", some 0, none⟩,
   ⟨"B", "min", "Pc", some 1, some 1⟩,
   ⟨"B1", "min", "Phg", some 1, some 2⟩,
   ⟨"B2", "min", "", some 1, some 3⟩]

/-- C9's counterexample properties: transition F→T crosses exactly one level up
(2→1); X and Y sit one level below the source (level 3) with detectors DX, DY
and sibling priorities 0 and 1. -/
def spC9 : List StageProps :=
  [⟨"T", "min", "", some 1, some 1⟩,
   ⟨"F", "min", "", some 2, none⟩,
   ⟨"X", "min", "DX", some 3, some 0⟩,
   ⟨"Y", "min", "DY", some 3, some 1⟩]

/-- C9's witness properties: as spC9 but the target carries a detector and the
below-level stages have ordinary priorities 2 and 1. -/
def spC9w : List StageProps :=
  [⟨"T", "min", "DT", some 1, some 1⟩,
   ⟨"F", "min", "", some 2, none⟩,
   ⟨"X", "min", "DX", some 3, some 2⟩,
   ⟨"Y", "min", "DY", some 3, some 1⟩]

/-- C8's junction: skeleton A0–B–C–A0 with anchor A0; the graph gives L30 the
successors A0, B, L39 in adjacency order. -/
def cfgC8 : JunctionConfig :=
  { vehicle_anchor := "A0", lrt_anchor := "L39",
    skeleton_stages := ["A0", "B", "C", "A0"],
    transitions := [⟨"L30", "A0", "end of skeleton"⟩, ⟨"L30", "B", "B-C-A0"⟩,
                    ⟨"L30", "L39", "end of skeleton"⟩],
    stage_props := [] }

/-- C8's adjacency structure (what build_graph yields for cfgC8). -/
def gC8 : Graph := [("L30", ["A0", "B", "L39"])]

/-- C1's counterexample junction: passes whole-graph validation (anchor B), but
its first transition B→A30 is vehicle→lig, a pair without a template. -/
def cfgBad : JunctionConfig :=
  { vehicle_anchor := "B", lrt_anchor := "L39",
    skeleton_stages := ["B"],
    transitions := [⟨"B", "A30", "A30-B"⟩, ⟨"A30", "B", "B"⟩],
    stage_props := [] }

/-- A well-formed two-transition junction (vehicle↔vehicle, no LRT anywhere):
validation passes and both transitions select template A. -/
def cfgW : JunctionConfig :=
  { vehicle_anchor := "A0", lrt_anchor := "L99",
    skeleton_stages := ["A0", "B", "A0"],
    transitions := [⟨"A0", "B", "B-A0"⟩, ⟨"B", "A0", "end of skeleton"⟩],
    stage_props := [] }

/-- cfgW's adjacency structure. -/
def gW : Graph := [("A0", ["B"]), ("B", ["A0"])]

/-- C5's dead-end junction (the spec's own example): transitions [(A,B)] with
anchor A and no outgoing edge from B. -/
def cfgDead : JunctionConfig :=
  { vehicle_anchor := "A", lrt_anchor := "L39",
    skeleton_stages := ["A"],
    transitions := [⟨"A", "B", "end of skeleton"⟩],
    stage_props := [] }

/-- C7's stage properties: B and C carry min-type `cpn`. -/
def spBC : List StageProps :=
  [⟨"B", "cpn", "", none, none⟩, ⟨"C", "cpn", "", none, none⟩]

/-- Characterization of the LRT pattern: the letter L then one or more digits. -/
theorem is_lrt_iff (s : String) : is_lrt s = true ↔
    ∃ ds : List Char, s.data = 'L' :: ds ∧ ds ≠ [] ∧ ∀ c ∈ ds, c.isDigit = true := by
  obtain ⟨cs⟩ := s
  show is_lrt (String.mk cs) = true ↔ _
  unfold is_lrt
  simp only [String.data]
  constructor
  · intro h
    split at h
    next x ds =>
      simp only [List.all_eq_true, Bool.and_eq_true, ne_eq, decide_eq_true_eq] at h
      exact ⟨ds, rfl, by simpa using h.1, h.2⟩
    next x hne =>
      simp at h
  · rintro ⟨ds, hds, hne, hdig⟩
    subst hds
    simp only [ne_eq, List.all_eq_true, Bool.and_eq_true, decide_eq_true_eq]
    exact ⟨by simpa using hne, hdig⟩

/-- Characterization of the Lig pattern: the letter A, a digit 3–9, one more digit. -/
theorem is_lig_iff (s : String) : is_lig s = true ↔
    ∃ c1 c2 : Char, s.data = ['A', c1, c2] ∧ '3' ≤ c1 ∧ c1 ≤ '9' ∧ c2.isDigit = true := by
  obtain ⟨cs⟩ := s
  show is_lig (String.mk cs) = true ↔ _
  unfold is_lig
  simp only [String.data]
  constructor
  · intro h
    split at h
    next x c1 c2 =>
      simp only [Bool.and_eq_true, decide_eq_true_eq] at h
      exact ⟨c1, c2, rfl, h.1.1, h.1.2, h.2⟩
    next x hne =>
      simp at h
  · rintro ⟨c1, c2, hds, h3, h9, hd⟩
    subst hds
    simp [h3, h9, hd]

/-- C2: the template map's own comment documents the ('lrt','lrt') entry as
"LRT entry → LRT entry", yet get_template normalises only the from side, so an
entry→entry transition (here L30→L31 with anchor L39) produces the
unknown-transition error instead of template G: the map entry is dead code. -/
theorem c2_entry_to_entry_eval :
    get_template "L30" "L31" "L39" =
      Except.error "No template for transition (L30:lrt_entry) → (L31:lrt_entry)" ∧
    (("lrt", "lrt"), "G") ∈ TEMPLATE_MAP ∧
    classify_stage "L30" "L39" = "lrt_entry" ∧
    classify_stage "L31" "L39" = "lrt_entry" :=
  ⟨rfl, by decide, rfl, rfl⟩

/-- C3: classification is total (every name yields one of the four categories),
the LRT pattern holds iff the name is the letter L followed by one or more
digits, the Lig pattern holds iff it is the letter A followed by exactly two
digits whose first is 3–9, no name matches both patterns, an LRT-pattern name
classifies as lrt_anchor exactly when it equals the configured anchor and as
lrt_entry otherwise, Lig-pattern names classify as lig, non-matching names as
vehicle, and in particular A0, A01 and A1–A9 classify as vehicle. -/
theorem c3_classification (s la : String) :
    (classify_stage s la = "vehicle" ∨ classify_stage s la = "lrt_anchor" ∨
      classify_stage s la = "lrt_entry" ∨ classify_stage s la = "lig") ∧
    (is_lrt s = true ↔
      ∃ ds : List Char, s.data = 'L' :: ds ∧ ds ≠ [] ∧ ∀ c ∈ ds, c.isDigit = true) ∧
    (is_lig s = true ↔
      ∃ c1 c2 : Char, s.data = ['A', c1, c2] ∧ '3' ≤ c1 ∧ c1 ≤ '9' ∧ c2.isDigit = true) ∧
    (¬(is_lrt s = true ∧ is_lig s = true)) ∧
    (is_lrt s = true →
      classify_stage s la = (if s = la then "lrt_anchor" else "lrt_entry")) ∧
    (is_lig s = true → classify_stage s la = "lig") ∧
    (is_lrt s = false → is_lig s = false → classify_stage s la = "vehicle") ∧
    (classify_stage "A0" la = "vehicle" ∧ classify_stage "A01" la = "vehicle" ∧
      classify_stage "A1" la = "vehicle" ∧ classify_stage "A2" la = "vehicle" ∧
      classify_stage "A3" la = "vehicle" ∧ classify_stage "A4" la = "vehicle" ∧
      classify_stage "A5" la = "vehicle" ∧ classify_stage "A6" la = "vehicle" ∧
      classify_stage "A7" la = "vehicle" ∧ classify_stage "A8" la = "vehicle" ∧
      classify_stage "A9" la = "vehicle") := by
  have hexcl : ¬(is_lrt s = true ∧ is_lig s = true) := by
    rintro ⟨h1, h2⟩
    obtain ⟨ds, hds, -, -⟩ := (is_lrt_iff s).mp h1
    obtain ⟨c1, c2, hds2, -, -, -⟩ := (is_lig_iff s).mp h2
    rw [hds] at hds2
    have : 'L' = 'A' := by injection hds2
    exact absurd this (by decide)
  refine ⟨?_, is_lrt_iff s, is_lig_iff s, hexcl, ?_, ?_, ?_, ?_⟩
  · unfold classify_stage
    split_ifs <;> simp
  · intro h
    simp [classify_stage, h]
  · intro h
    have hlrt : is_lrt s = false := by
      cases hl : is_lrt s
      · rfl
      · exact absurd ⟨hl, h⟩ hexcl
    simp [classify_stage, hlrt, h]
  · intro h1 h2
    simp [classify_stage, h1, h2]
  · exact ⟨rfl, rfl, rfl, rfl, rfl, rfl, rfl, rfl, rfl, rfl, rfl⟩

/-- C4: with siblings B(level 1, priority 1, detector Pc), B1(level 1,
priority 2, detector Phg), B2(level 1, priority 3, no detector) and A at
level 0, the transition A→B2 yields exactly the two higher-priority sibling
checks, in ascending priority order, and no IsActive part. -/
theorem c4_demand_example :
    build_demand "B2" "A" spC4 = "IsInactive(Pc) and IsInactive(Phg)" := rfl

/-- Rendering an enumerated path whose final index is marked bare: the last
element stays bare and every earlier element keeps the LRT/Lig/DQ-or-suffix
rule (helper for the tail-rendering claim). -/
theorem enum_last_split (sp : List StageProps) :
    ∀ (l : List String) (last : String) (k N : Nat), k + l.length = N →
    (List.enumFrom k (l ++ [last])).map (fun is =>
        if is.1 = N || is_lrt is.2 || is_lig is.2 || is.2 = "DQ" then is.2
        else apply_suffix is.2 sp)
      = l.map (fun s => if is_lrt s || is_lig s || s = "DQ" then s
          else apply_suffix s sp) ++ [last] := by
  intro l
  induction l with
  | nil =>
    intro last k N hk
    simp only [List.length_nil, Nat.add_zero] at hk
    subst hk
    simp [List.enumFrom]
  | cons x xs ih =>
    intro last k N hk
    have hkN : k ≠ N := by
      simp only [List.length_cons] at hk
      omega
    simp only [List.cons_append, List.enumFrom, List.map_cons, List.append_eq]
    rw [ih last (k + 1) N (by simp only [List.length_cons] at hk; omega)]
    simp [hkN]

/-- C7: tail rendering joins with underscores; the last element is always bare
and every other element is suffix-decorated (name plus min-type, `min` when the
stage has no recorded properties) unless it is LRT-classified, Lig-classified
or the literal DQ; a single element renders bare, an empty list renders empty;
in particular ["B","C","A0"] with B,C of min-type cpn gives "Bcpn_Ccpn_A0" and
["L30","C","A0"] gives "L30_Ccpn_A0". -/
theorem c7_tail_rendering (sp : List StageProps) :
    _tail_str [] sp = "" ∧
    (∀ x : String, _tail_str [x] sp = x) ∧
    (∀ (init : List String) (last : String),
      _tail_str (init ++ [last]) sp = String.intercalate "_"
        (init.map (fun s => if is_lrt s || is_lig s || s = "DQ" then s
            else apply_suffix s sp) ++ [last])) ∧
    (∀ s : String, apply_suffix s sp =
      s ++ (match spGet sp s with | some p => p.min_type | none => "min")) ∧
    _tail_str ["B", "C", "A0"] spBC = "Bcpn_Ccpn_A0" ∧
    _tail_str ["L30", "C", "A0"] spBC = "L30_Ccpn_A0" := by
  refine ⟨rfl, fun x => rfl, ?_, ?_, rfl, rfl⟩
  · intro init last
    match init with
    | [] => rfl
    | [i0] =>
      show String.intercalate "_" (([i0, last].enum).map (fun is =>
          if is.1 = [i0, last].length - 1 || is_lrt is.2 || is_lig is.2 || is.2 = "DQ"
          then is.2 else apply_suffix is.2 sp)) = _
      have h := enum_last_split sp [i0] last 0 1 (by simp)
      simp only [List.enum] at *
      simp only [List.length_cons, List.length_nil, List.singleton_append] at *
      rw [h]
    | i0 :: i1 :: irest =>
      show String.intercalate "_" ((((i0 :: i1 :: irest) ++ [last]).enum).map (fun is =>
          if is.1 = ((i0 :: i1 :: irest) ++ [last]).length - 1 || is_lrt is.2 ||
            is_lig is.2 || is.2 = "DQ"
          then is.2 else apply_suffix is.2 sp)) = _
      have h := enum_last_split sp (i0 :: i1 :: irest) last 0 (i0 :: i1 :: irest).length
        (by simp)
      simp only [List.enum] at *
      simp only [List.length_append, List.length_cons, List.length_nil,
        Nat.add_sub_cancel] at *
      rw [h]
  · intro s
    cases h : spGet sp s <;> simp [apply_suffix, h]

/-- Head of a stable insertion: the old head if its key is strictly smaller,
otherwise the inserted element. -/
theorem head?_insertSortedBy {α : Type} (key : α → Int) (x : α) (l : List α) :
    (insertSortedBy key x l).head? = some (match l with
      | [] => x
      | y :: _ => if key y < key x then y else x) := by
  cases l with
  | nil => rfl
  | cons y ys =>
    simp only [insertSortedBy]
    split <;> simp

/-- The head of the stable sort is the first element of minimal key. -/
theorem head?_sortByKey {α : Type} (key : α → Int) (l : List α) :
    (sortByKey key l).head? = firstMinBy key l := by
  induction l with
  | nil => rfl
  | cons a l ih =>
    show (insertSortedBy key a (sortByKey key l)).head? = _
    rw [head?_insertSortedBy]
    cases h : sortByKey key l with
    | nil =>
      have hm : firstMinBy key l = none := by rw [← ih, h]; rfl
      simp [firstMinBy, hm]
    | cons y ys =>
      have hm : firstMinBy key l = some y := by rw [← ih, h]; rfl
      simp only [firstMinBy, hm, apply_ite some]

/-- C8's counterexample: with anchor A0 and skeleton A0–B–C–A0, the stage L30
has vehicle successors A0 and B; L30→L39 is an lrt→lrt transition compiled with
template G; the claim's selection (earliest vehicle successor in skeleton
order) picks A0, but the code excludes the vehicle anchor and uses B, so the
emitted second AT path reads L30_Bmin_jL39, not L30_A0min_jL39. -/
theorem c8_counterexample :
    get_template "L30" "L39" "L39" = Except.ok "G" ∧
    build_graph cfgC8.transitions = gC8 ∧
    claimedNextVehicleSpec "L30" gC8 cfgC8 = "A0" ∧
    apply_suffix (claimedNextVehicleSpec "L30" gC8 cfgC8) cfgC8.stage_props = "A0min" ∧
    _find_next_vehicle_in_skeleton "L30" gC8 cfgC8 = "B" ∧
    _dispatch "G" "L30" "L39" [] gC8 cfgC8 =
      Except.ok ("(EG_L30=true and AT_less(0, le, L30_jL39)) or (WTG(L30_L39)=true and AT_less(0, ls, L30_Bmin_jL39))") ∧
    ("Bmin" : String) ≠ "A0min" :=
  ⟨rfl, rfl, rfl, rfl, rfl, rfl, by decide⟩

/-- First-minimum of a non-empty list exists. -/
theorem firstMinBy_cons_ne_none {α : Type} (key : α → Int) (a : α) (l : List α) :
    firstMinBy key (a :: l) ≠ none := by
  simp only [firstMinBy]
  cases firstMinBy key l with
  | none => simp
  | some m =>
    dsimp only
    split <;> simp

/-- C8 amended: the next vehicle used by template G's second AT path is the
earliest-appearing vehicle-classified successor OTHER THAN THE VEHICLE ANCHOR
in the canonical skeleton cycle order (sentinel position 999 for stages absent
from the skeleton, raw adjacency order as the final tiebreak), with the anchor
itself as the fallback when no such successor exists. -/
theorem c8_amended (lrt_stage : String) (graph : Graph) (cfg : JunctionConfig) :
    _find_next_vehicle_in_skeleton lrt_stage graph cfg =
      amendedNextVehicleSpec lrt_stage graph cfg ∧
    (∀ (from_s to_s : String) (tail_stages : List String),
      _dispatch "G" from_s to_s tail_stages graph cfg =
        Except.ok (template_g from_s to_s (lrt_to_j to_s)
          (apply_suffix (_find_next_vehicle_in_skeleton from_s graph cfg)
            cfg.stage_props ++ "_" ++ lrt_to_j to_s))) := by
  constructor
  · simp only [_find_next_vehicle_in_skeleton, amendedNextVehicleSpec]
    have hkey : (fun s => match (dedupFirstSeen cfg.skeleton_stages).findIdx?
        (fun x => decide (x = s)) with
        | some i => (i : Int)
        | none => 999) = skeletonPosOf cfg := funext (fun s => rfl)
    rw [hkey]
    have hcand : (graphGet graph lrt_stage).filter
        (fun n => !is_lrt n && !is_lig n && decide (n ≠ cfg.vehicle_anchor)) =
        (graphGet graph lrt_stage).filter
        (fun n => is_vehicle n && decide (n ≠ cfg.vehicle_anchor)) := by
      apply List.filter_congr
      intro n _
      simp [is_vehicle, Bool.and_assoc]
    rw [hcand]
    cases hc : (graphGet graph lrt_stage).filter
        (fun n => is_vehicle n && decide (n ≠ cfg.vehicle_anchor)) with
    | nil => simp [firstMinBy]
    | cons c cs =>
      simp only [reduceCtorEq, if_false]
      have hh := head?_sortByKey (skeletonPosOf cfg) (c :: cs)
      cases hm : firstMinBy (skeletonPosOf cfg) (c :: cs) with
      | none => exact absurd hm (firstMinBy_cons_ne_none _ _ _)
      | some m =>
        rw [hm] at hh
        cases hs : sortByKey (skeletonPosOf cfg) (c :: cs) with
        | nil => rw [hs] at hh; simp at hh
        | cons z zs =>
          rw [hs] at hh
          simp only [List.head?_cons, Option.some.injEq] at hh
          subst hh
          simp [hs]
  · intro from_s to_s tail_stages
    rfl

/-- C9's counterexample: the transition F→T crosses exactly one level up, and
the stages one level below the source have priorities 0 (detector DX) and 1
(detector DY).  The claim's ascending-priority order demands DX before DY, but
Python's `p.sibling_priority or 99` treats the falsy priority 0 as 99, so the
code emits DY before DX. -/
theorem c9_counterexample :
    build_demand "T" "F" spC9 = "IsInactive(DY) and IsInactive(DX)" ∧
    "IsInactive(DY) and IsInactive(DX)" ≠ "IsInactive(DX) and IsInactive(DY)" :=
  ⟨rfl, by decide⟩

/-- C9 amended: when from.level − target.level = 1, an IsInactive part is
appended for every detector-bearing stage at level from.level + 1, in ascending
order of the key "sibling priority, with an undefined or zero priority keyed
99" (stable, so insertion order breaks ties), skipping any part identical to
one already collected — whether by the sibling rule or earlier in this very
step. -/
theorem c9_amended (sp : List StageProps) (target from_s : String)
    (tp fp : StageProps) (fl tl : Int)
    (htp : spGet sp target = some tp) (hfp : spGet sp from_s = some fp)
    (htl : tp.waterfall_level = some tl) (hfl : fp.waterfall_level = some fl)
    (hgap : fl - tl = 1) :
    build_demand target from_s sp = String.intercalate " and "
      (appendNewParts (demandParts12 target from_s sp)
        ((sortByKey rule3Key (sp.filter (fun p =>
            decide (p.waterfall_level = some (fl + 1) ∧ p.detector ≠ "")))).map
          (fun p => "IsInactive(" ++ p.detector ++ ")"))) := by
  have hkey : (fun p : StageProps => match p.sibling_priority with
      | some pr => if pr = 0 then 99 else pr
      | none => 99) = rule3Key := funext fun p => rfl
  simp only [build_demand, demandParts12, appendNewParts, htp, hfp, htl, hfl, hgap,
    List.foldl_map, hkey, if_true]

/-- Witness for the amended waterfall rule at a concrete junction: T carries
detector DT at level 1, F sits at level 2, and X, Y sit at level 3 with
priorities 2 and 1. -/
theorem c9_witness :
    build_demand "T" "F" spC9w = String.intercalate " and "
      (appendNewParts (demandParts12 "T" "F" spC9w)
        ((sortByKey rule3Key (spC9w.filter (fun p =>
            decide (p.waterfall_level = some ((2 : Int) + 1) ∧ p.detector ≠ "")))).map
          (fun p => "IsInactive(" ++ p.detector ++ ")"))) :=
  c9_amended spC9w "T" "F" ⟨"T", "min", "DT", some 1, some 1⟩
    ⟨"F", "min", "", some 2, none⟩ 2 1 rfl rfl rfl rfl (by decide)

/-- List.find? returns the first element satisfying the predicate. -/
theorem find?_eq_some_of_first {α : Type} (p : α → Bool) :
    ∀ (l : List α) (i : Nat) (x : α), l.get? i = some x → p x = true →
      (∀ j, j < i → ∀ y, l.get? j = some y → p y = false) →
      l.find? p = some x := by
  intro l
  induction l with
  | nil => intro i x h; simp at h
  | cons a l ih =>
    intro i x hget hpx hbefore
    cases i with
    | zero =>
      simp only [List.get?_cons_zero, Option.some.injEq] at hget
      subst hget
      simp [List.find?_cons, hpx]
    | succ i =>
      have ha : p a = false := hbefore 0 (Nat.succ_pos i) a rfl
      simp only [List.get?_cons_succ] at hget
      rw [List.find?_cons_of_neg _ (by simp [ha])]
      exact ih i x hget hpx (fun j hj y hy => hbefore (j + 1) (by omega) y hy)

/-- C5: whole-graph validation runs before any row: the first transition whose
to-stage is neither the vehicle anchor nor a from-stage makes compilation fail
with a single fatal error naming that stage and yields no rows at all; when no
such dead end exists, validation passes and row production proceeds. -/
theorem c5_validation (cfg : JunctionConfig) :
    (∀ (i : Nat) (t0 : Transition), cfg.transitions.get? i = some t0 →
      (t0.to_stage ≠ cfg.vehicle_anchor ∧
        t0.to_stage ∉ cfg.transitions.map (fun t => t.from_stage)) →
      (∀ (j : Nat) (tj : Transition), j < i → cfg.transitions.get? j = some tj →
        ¬(tj.to_stage ≠ cfg.vehicle_anchor ∧
          tj.to_stage ∉ cfg.transitions.map (fun t => t.from_stage))) →
      compile_junction cfg = Except.error ("Topology dead end: stage '" ++
        t0.to_stage ++
        "' appears as a target but has no outgoing transitions. Check the Inter-Stages table.")) ∧
    ((∀ t ∈ cfg.transitions, t.to_stage = cfg.vehicle_anchor ∨
        t.to_stage ∈ cfg.transitions.map (fun t => t.from_stage)) →
      validate_topology cfg.transitions cfg.vehicle_anchor = Except.ok () ∧
      compile_junction cfg = compile_rows cfg (build_graph cfg.transitions) 2
        cfg.transitions) := by
  constructor
  · intro i t0 hget hpred hfirst
    have hfind : cfg.transitions.find? (fun t =>
        decide (t.to_stage ≠ cfg.vehicle_anchor ∧
          t.to_stage ∉ cfg.transitions.map (fun t => t.from_stage))) = some t0 := by
      apply find?_eq_some_of_first _ _ i t0 hget
      · simpa using hpred
      · intro j hj y hy
        simpa using hfirst j y hj hy
    have hval : validate_topology cfg.transitions cfg.vehicle_anchor =
        Except.error ("Topology dead end: stage '" ++ t0.to_stage ++
          "' appears as a target but has no outgoing transitions. Check the Inter-Stages table.") := by
      simp only [validate_topology, hfind]
    simp only [compile_junction, hval, Except.bind]
    rfl
  · intro h
    have hfind : cfg.transitions.find? (fun t =>
        decide (t.to_stage ≠ cfg.vehicle_anchor ∧
          t.to_stage ∉ cfg.transitions.map (fun t => t.from_stage))) = none := by
      rw [List.find?_eq_none]
      intro t ht
      simp only [decide_eq_true_eq, not_and, not_not]
      intro hne
      rcases h t ht with h1 | h2
      · exact absurd h1 hne
      · exact h2
    have hval : validate_topology cfg.transitions cfg.vehicle_anchor = Except.ok () := by
      simp only [validate_topology, hfind]
    refine ⟨hval, ?_⟩
    simp only [compile_junction, hval, Except.bind]
    rfl

/-- Witness: the spec's own examples — transitions [(A,B)] with anchor A fail
fatally naming B and produce no rows; transitions [(A0,B),(B,A0)] with anchor
A0 validate cleanly. -/
theorem c5_witness :
    compile_junction cfgDead = Except.error ("Topology dead end: stage 'B'" ++
      " appears as a target but has no outgoing transitions. Check the Inter-Stages table.") ∧
    validate_topology cfgW.transitions cfgW.vehicle_anchor = Except.ok () :=
  ⟨(c5_validation cfgDead).1 0 ⟨"A", "B", "end of skeleton"⟩ rfl (by decide)
      (fun j tj hj _ => absurd hj (Nat.not_lt_zero j)),
    ((c5_validation cfgW).2 (by decide)).1⟩

/-- When template selection succeeds for every transition, the row loop
produces exactly one row per transition, in order, numbered from the start
index, with the dispatch result (or its `ERROR: `-rendered message) in the
logic-code field. -/
theorem compile_rows_ok (cfg : JunctionConfig) (graph : Graph) :
    ∀ (l : List Transition) (i : Nat),
      (∀ t ∈ l, (get_template t.from_stage t.to_stage cfg.lrt_anchor).isOk = true) →
      compile_rows cfg graph i l = Except.ok ((List.enumFrom i l).map (fun it =>
        { row_num := it.1, from_stage := it.2.from_stage, to_stage := it.2.to_stage,
          template := (get_template it.2.from_stage it.2.to_stage
            cfg.lrt_anchor).toOption.getD "",
          logic_code := match _dispatch ((get_template it.2.from_stage it.2.to_stage
              cfg.lrt_anchor).toOption.getD "") it.2.from_stage it.2.to_stage
              (parse_rest_of_skeleton it.2.rest_of_skeleton).tail graph cfg with
            | Except.ok c => c
            | Except.error e => "ERROR: " ++ e })) := by
  intro l
  induction l with
  | nil => intro i _; rfl
  | cons t rest ih =>
    intro i hall
    have ht := hall t (List.mem_cons_self t rest)
    cases hg : get_template t.from_stage t.to_stage cfg.lrt_anchor with
    | error e => rw [hg] at ht; simp [Except.isOk, Except.toBool] at ht
    | ok letter =>
      have hrest : ∀ t ∈ rest, (get_template t.from_stage t.to_stage cfg.lrt_anchor).isOk
          = true := fun t ht => hall t (List.mem_cons_of_mem _ ht)
      simp only [compile_rows, hg, bind, Except.bind, ih (i + 1) hrest,
        List.enumFrom, List.map_cons, hg, Except.toOption, Option.getD_some]

/-- When template selection fails for some transition, the first such failure
aborts the whole row loop with that very error. -/
theorem compile_rows_err (cfg : JunctionConfig) (graph : Graph) :
    ∀ (l : List Transition) (i idx : Nat) (t : Transition) (e : String),
      l.get? idx = some t →
      get_template t.from_stage t.to_stage cfg.lrt_anchor = Except.error e →
      (∀ j tj, j < idx → l.get? j = some tj →
        (get_template tj.from_stage tj.to_stage cfg.lrt_anchor).isOk = true) →
      compile_rows cfg graph i l = Except.error e := by
  intro l
  induction l with
  | nil => intro i idx t e h; simp at h
  | cons a rest ih =>
    intro i idx t e hget hge hok
    cases idx with
    | zero =>
      simp only [List.get?_cons_zero, Option.some.injEq] at hget
      subst hget
      simp only [compile_rows, hge, bind, Except.bind]
    | succ idx =>
      have ha := hok 0 a (Nat.succ_pos _) rfl
      cases hg : get_template a.from_stage a.to_stage cfg.lrt_anchor with
      | error e2 => rw [hg] at ha; simp [Except.isOk, Except.toBool] at ha
      | ok letter =>
        simp only [List.get?_cons_succ] at hget
        simp only [compile_rows, hg, bind, Except.bind]
        rw [ih (i + 1) idx t e hget hge
          (fun j tj hj hjg => hok (j + 1) tj (by omega) (by simpa using hjg))]

/-- C1's counterexample: cfgBad passes whole-graph validation, its second
transition A30→B has a template (F), yet the first transition B→A30 is
vehicle→lig, a pair with no template — and that unknown-transition error is
raised outside the per-row catch, so compilation aborts with the error and
produces no rows at all instead of an `ERROR: ` row plus the other row. -/
theorem c1_counterexample :
    validate_topology cfgBad.transitions cfgBad.vehicle_anchor = Except.ok () ∧
    get_template "A30" "B" "L39" = Except.ok "F" ∧
    compile_junction cfgBad =
      Except.error "No template for transition (B:vehicle) → (A30:lig)" :=
  ⟨rfl, rfl, rfl⟩

/-- C1 amended: after whole-graph validation passes, failures inside
per-transition dispatch are caught for that transition alone and rendered as
`ERROR: <message>` in its row while every other row is produced unchanged; but
template selection runs outside the per-row catch, so the first transition
whose classification pair has no template aborts the whole compilation with
that unknown-transition error and no rows at all. -/
theorem c1_amended (cfg : JunctionConfig)
    (hval : validate_topology cfg.transitions cfg.vehicle_anchor = Except.ok ()) :
    ((∀ t ∈ cfg.transitions,
        (get_template t.from_stage t.to_stage cfg.lrt_anchor).isOk = true) →
      compile_junction cfg = Except.ok ((List.enumFrom 2 cfg.transitions).map (fun it =>
        { row_num := it.1, from_stage := it.2.from_stage, to_stage := it.2.to_stage,
          template := (get_template it.2.from_stage it.2.to_stage
            cfg.lrt_anchor).toOption.getD "",
          logic_code := match _dispatch ((get_template it.2.from_stage it.2.to_stage
              cfg.lrt_anchor).toOption.getD "") it.2.from_stage it.2.to_stage
              (parse_rest_of_skeleton it.2.rest_of_skeleton).tail
              (build_graph cfg.transitions) cfg with
            | Except.ok c => c
            | Except.error e => "ERROR: " ++ e }))) ∧
    (∀ (idx : Nat) (t : Transition) (e : String),
      cfg.transitions.get? idx = some t →
      get_template t.from_stage t.to_stage cfg.lrt_anchor = Except.error e →
      (∀ j tj, j < idx → cfg.transitions.get? j = some tj →
        (get_template tj.from_stage tj.to_stage cfg.lrt_anchor).isOk = true) →
      compile_junction cfg = Except.error e) := by
  have hcj : compile_junction cfg =
      compile_rows cfg (build_graph cfg.transitions) 2 cfg.transitions := by
    simp only [compile_junction, hval, Except.bind]
    rfl
  constructor
  · intro hall
    rw [hcj]
    exact compile_rows_ok cfg (build_graph cfg.transitions) cfg.transitions 2 hall
  · intro idx t e hget hge hok
    rw [hcj]
    exact compile_rows_err cfg (build_graph cfg.transitions) cfg.transitions 2 idx t e
      hget hge hok

/-- Witness: on a two-transition vehicle-only junction, validation passes,
every transition selects a template, and the batch completes with one row per
transition. -/
theorem c1_witness :
    compile_junction cfgW = Except.ok ((List.enumFrom 2 cfgW.transitions).map (fun it =>
      { row_num := it.1, from_stage := it.2.from_stage, to_stage := it.2.to_stage,
        template := (get_template it.2.from_stage it.2.to_stage
          cfgW.lrt_anchor).toOption.getD "",
        logic_code := match _dispatch ((get_template it.2.from_stage it.2.to_stage
            cfgW.lrt_anchor).toOption.getD "") it.2.from_stage it.2.to_stage
            (parse_rest_of_skeleton it.2.rest_of_skeleton).tail
            (build_graph cfgW.transitions) cfgW with
          | Except.ok c => c
          | Except.error e => "ERROR: " ++ e })) :=
  (c1_amended cfgW rfl).1 (by decide)

/-- Neighbour lists are drawn from the graph's node list. -/
theorem graphGet_subset_nodes : ∀ (g : Graph) (c : String), ∀ n ∈ graphGet g c,
    n ∈ graphNodes g := by
  intro g c
  induction g with
  | nil => intro n hn; simp [graphGet] at hn
  | cons kv rest ih =>
    intro n hn
    obtain ⟨k, vs⟩ := kv
    simp only [graphGet] at hn
    by_cases hk : k = c
    · simp [hk] at hn
      simp [graphNodes, hn]
    · simp [hk] at hn
      simp [graphNodes, ih n hn]

/-- Visiting a fresh graph node strictly shrinks the unseen count. -/
theorem unseen_strict (g : Graph) (n : String) (vis : List String)
    (hng : n ∈ graphNodes g) (hnv : n ∉ vis) :
    unseenCount g (n :: vis) < unseenCount g vis := by
  have hsubl : List.Sublist ((graphNodes g).filter (fun x => decide (x ∉ n :: vis)))
      ((graphNodes g).filter (fun x => decide (x ∉ vis))) := by
    apply List.monotone_filter_right
    intro a ha
    simp only [decide_eq_true_eq, List.mem_cons, not_or] at *
    exact ha.2
  rcases Nat.lt_or_ge (((graphNodes g).filter (fun x => decide (x ∉ n :: vis))).length)
      (((graphNodes g).filter (fun x => decide (x ∉ vis))).length) with h | h
  · exact h
  · exfalso
    have heq := hsubl.eq_of_length (Nat.le_antisymm hsubl.length_le h)
    have hn2 : n ∈ (graphNodes g).filter (fun x => decide (x ∉ vis)) := by
      simp [List.mem_filter, hng, hnv]
    rw [← heq] at hn2
    simp [List.mem_filter] at hn2

/-- Visiting never grows the unseen count. -/
theorem unseen_mono (g : Graph) (n : String) (vis : List String) :
    unseenCount g (n :: vis) ≤ unseenCount g vis := by
  apply List.Sublist.length_le
  apply List.monotone_filter_right
  intro a ha
  simp only [decide_eq_true_eq, List.mem_cons, not_or] at *
  exact ha.2

/-- The neighbour scan cannot increase the BFS measure: fresh queue entries are
paid for by freshly visited graph nodes. -/
theorem bfs_scan_measure (g : Graph) (dist : Nat) :
    ∀ (ns : List String), (∀ n ∈ ns, n ∈ graphNodes g) →
      ∀ (vis : List String) (acc : List (String × Nat)) (nr : Option (String × Nat)),
      unseenCount g (bfs_scan ns dist vis acc nr).1 +
        (bfs_scan ns dist vis acc nr).2.1.length ≤ unseenCount g vis + acc.length := by
  intro ns
  induction ns with
  | nil => intro _ vis acc nr; simp [bfs_scan]
  | cons n ns ih =>
    intro hmem vis acc nr
    have hns : ∀ m ∈ ns, m ∈ graphNodes g := fun m hm => hmem m (List.mem_cons_of_mem _ hm)
    simp only [bfs_scan]
    by_cases hv : n ∈ vis
    · simp only [hv, if_true]
      exact ih hns vis acc nr
    · simp only [hv, if_false]
      by_cases hl : is_lrt n
      · simp only [hl, if_true]
        calc unseenCount g (bfs_scan ns dist (n :: vis) acc _).1 +
              (bfs_scan ns dist (n :: vis) acc _).2.1.length
            ≤ unseenCount g (n :: vis) + acc.length := ih hns (n :: vis) acc _
          _ ≤ unseenCount g vis + acc.length :=
              Nat.add_le_add_right (unseen_mono g n vis) _
      · simp only [hl, if_false]
        calc unseenCount g (bfs_scan ns dist (n :: vis) (acc ++ [(n, dist + 1)]) nr).1 +
              (bfs_scan ns dist (n :: vis) (acc ++ [(n, dist + 1)]) nr).2.1.length
            ≤ unseenCount g (n :: vis) + (acc ++ [(n, dist + 1)]).length :=
              ih hns (n :: vis) (acc ++ [(n, dist + 1)]) nr
          _ = unseenCount g (n :: vis) + acc.length + 1 := by
              simp only [List.length_append, List.length_cons, List.length_nil]
              omega
          _ ≤ unseenCount g vis + acc.length :=
              Nat.succ_le_of_lt (Nat.add_lt_add_right
                (unseen_strict g n vis (hmem n (List.mem_cons_self n ns)) hv) _)

/-- Every entry the scan appends to the queue carries distance dist + 1. -/
theorem bfs_scan_acc_entries (dist : Nat) :
    ∀ (ns : List String) (vis : List String) (acc : List (String × Nat))
      (nr : Option (String × Nat)), ∀ e ∈ (bfs_scan ns dist vis acc nr).2.1,
      e ∈ acc ∨ e.2 = dist + 1 := by
  intro ns
  induction ns with
  | nil => intro vis acc nr e he; exact Or.inl he
  | cons n ns ih =>
    intro vis acc nr e he
    simp only [bfs_scan] at he
    by_cases hv : n ∈ vis
    · simp only [hv, if_true] at he
      exact ih vis acc nr e he
    · simp only [hv, if_false] at he
      by_cases hl : is_lrt n
      · simp only [hl, if_true] at he
        exact ih (n :: vis) acc _ e he
      · simp only [hl, if_false] at he
        rcases ih (n :: vis) (acc ++ [(n, dist + 1)]) nr e he with h | h
        · rcases List.mem_append.mp h with h2 | h2
          · exact Or.inl h2
          · simp only [List.mem_singleton] at h2
            subst h2
            exact Or.inr rfl
        · exact Or.inr h

/-- Once a nearest LRT within dist + 1 is recorded, the scan never changes it. -/
theorem bfs_scan_nearest_stable (dist : Nat) :
    ∀ (ns : List String) (vis : List String) (acc : List (String × Nat))
      (p : String × Nat), p.2 ≤ dist + 1 →
      (bfs_scan ns dist vis acc (some p)).2.2 = some p := by
  intro ns
  induction ns with
  | nil => intro vis acc p _; rfl
  | cons n ns ih =>
    intro vis acc p hp
    simp only [bfs_scan]
    by_cases hv : n ∈ vis
    · simp only [hv, if_true]
      exact ih vis acc p hp
    · simp only [hv, if_false]
      by_cases hl : is_lrt n
      · simp only [hl, if_true]
        have hlt : ¬(dist + 1 < p.2) := by omega
        simp only [hlt, if_false]
        exact ih (n :: vis) acc p hp
      · simp only [hl, if_false]
        exact ih (n :: vis) (acc ++ [(n, dist + 1)]) p hp

/-- A fresh LRT neighbour forces the scan to record a nearest LRT at dist + 1. -/
theorem bfs_scan_some_of_fresh_lrt (dist : Nat) :
    ∀ (ns : List String) (vis : List String) (acc : List (String × Nat)),
      (∃ n ∈ ns, is_lrt n = true ∧ n ∉ vis) →
      ∃ L, (bfs_scan ns dist vis acc none).2.2 = some (L, dist + 1) := by
  intro ns
  induction ns with
  | nil => rintro vis acc ⟨n, hn, -, -⟩; simp at hn
  | cons n0 ns ih =>
    rintro vis acc ⟨n, hn, hlrt, hfresh⟩
    simp only [bfs_scan]
    by_cases hv : n0 ∈ vis
    · simp only [hv, if_true]
      apply ih
      rcases List.mem_cons.mp hn with rfl | hn2
      · exact absurd hv hfresh
      · exact ⟨n, hn2, hlrt, hfresh⟩
    · simp only [hv, if_false]
      by_cases hl : is_lrt n0
      · simp only [hl, if_true]
        exact ⟨n0, bfs_scan_nearest_stable dist ns (n0 :: vis) acc (n0, dist + 1)
          (Nat.le_refl _)⟩
      · simp only [hl, if_false]
        apply ih
        rcases List.mem_cons.mp hn with rfl | hn2
        · exact absurd hlrt (by simpa using hl)
        · refine ⟨n, hn2, hlrt, ?_⟩
          simp only [List.mem_cons, not_or]
          exact ⟨fun he => by subst he; exact absurd hlrt (by simpa using hl), hfresh⟩

/-- Once some nearest LRT is recorded (its distance at most one more than every
queued distance), the BFS loop returns it. -/
theorem bfs_loop_some (g : Graph) :
    ∀ (N : Nat) (vis : List String) (q : List (String × Nat)) (p : String × Nat),
      unseenCount g vis + q.length ≤ N →
      (∀ e ∈ q, p.2 ≤ e.2 + 1) →
      bfs_loop g vis q (some p) = some p.1 := by
  intro N
  induction N using Nat.strong_induction_on with
  | _ N ih =>
    intro vis q p hN hq
    match q with
    | [] => simp [bfs_loop]
    | (current, dist) :: qrest =>
      by_cases hp : pruneCheck (some p) dist
      · simp only [bfs_loop, hp, if_true]
        have hlen : unseenCount g vis + qrest.length < N := by
          simp only [List.length_cons] at hN
          omega
        exact ih _ hlen vis qrest p (Nat.le_refl _) (fun e he => hq e (List.mem_cons_of_mem _ he))
      · simp only [bfs_loop, hp, if_false]
        have hphead : p.2 ≤ dist + 1 := hq (current, dist) (List.mem_cons_self _ _)
        have hsome := bfs_scan_nearest_stable dist (graphGet g current) vis [] p hphead
        have hmeas := bfs_scan_measure g dist (graphGet g current)
          (graphGet_subset_nodes g current) vis [] (some p)
        rcases hs : bfs_scan (graphGet g current) dist vis [] (some p) with ⟨vis', newq, nr'⟩
        rw [hs] at hsome hmeas
        simp only at hsome hmeas
        subst hsome
        have hlen : unseenCount g vis' + (qrest ++ newq).length < N := by
          simp only [List.length_append, List.length_nil, Nat.add_zero] at hmeas
          simp only [List.length_cons] at hN
          simp only [List.length_append]
          omega
        refine ih _ hlen vis' (qrest ++ newq) p (Nat.le_refl _) ?_
        intro e he
        rcases List.mem_append.mp he with h2 | h2
        · exact hq e (List.mem_cons_of_mem _ h2)
        · have := bfs_scan_acc_entries dist (graphGet g current) vis [] (some p) e
            (by rw [hs]; exact h2)
          rcases this with h3 | h3
          · simp at h3
          · omega

/-- If the BFS from `s` answers none, then `s` has no fresh LRT neighbour: any
directly reachable LRT stage can only be `s` itself. -/
theorem bfs_none_no_fresh_lrt (g : Graph) (s la : String)
    (hnone : find_nearest_lrt_from_stage s g la = none) :
    ∀ n ∈ graphGet g s, is_lrt n = true → n = s := by
  intro n hn hlrt
  by_contra hne
  have hfresh : ∃ m ∈ graphGet g s, is_lrt m = true ∧ m ∉ [s] := by
    refine ⟨n, hn, hlrt, ?_⟩
    simpa using hne
  obtain ⟨L, hL⟩ := bfs_scan_some_of_fresh_lrt 0 (graphGet g s) [s] [] hfresh
  unfold find_nearest_lrt_from_stage at hnone
  have hp : pruneCheck none 0 = false := rfl
  simp only [bfs_loop, hp, if_false] at hnone
  rcases hs : bfs_scan (graphGet g s) 0 [s] [] none with ⟨vis', newq, nr'⟩
  rw [hs] at hL hnone
  simp only at hL hnone
  subst hL
  rw [bfs_loop_some g (unseenCount g vis' + ([] ++ newq : List (String × Nat)).length)
    vis' ([] ++ newq) (L, 1) (Nat.le_refl _) ?_] at hnone
  · exact absurd hnone (by simp)
  · intro e he
    rcases List.mem_append.mp he with h2 | h2
    · simp at h2
    · have := bfs_scan_acc_entries 0 (graphGet g s) [s] [] none e (by rw [hs]; exact h2)
      rcases this with h3 | h3
      · simp at h3
      · omega

/-- C10: on a vehicle→vehicle transition where no LRT stage is reachable from
the target nor from the current stage, template A still produces a well-formed
expression (never an error row): the j-marker in both AT conditions is the
literal jL_UNKNOWN and the bypass WTG falls back to the configured lrt-anchor. -/
theorem c10_jl_unknown (cfg : JunctionConfig) (graph : Graph) (from_s to_s : String)
    (tail_stages : List String)
    (hfrom : classify_stage from_s cfg.lrt_anchor = "vehicle")
    (hto : classify_stage to_s cfg.lrt_anchor = "vehicle")
    (h1 : find_nearest_lrt_from_stage to_s graph cfg.lrt_anchor = none)
    (h2 : find_nearest_lrt_from_stage from_s graph cfg.lrt_anchor = none) :
    _dispatch "A" from_s to_s tail_stages graph cfg =
      Except.ok (template_a from_s (_gt_func from_s cfg.stage_props)
        (build_demand to_s from_s cfg.stage_props)
        (apply_suffix to_s cfg.stage_props) "jL_UNKNOWN" cfg.lrt_anchor
        (if tail_stages ≠ [] then
          apply_suffix to_s cfg.stage_props ++ "_" ++ _tail_str tail_stages cfg.stage_props
        else to_s)
        false) := by
  have hlrtf : is_lrt from_s = false := by
    cases h : is_lrt from_s
    · rfl
    · exfalso
      unfold classify_stage at hfrom
      rw [h] at hfrom
      simp only [if_true] at hfrom
      by_cases he : from_s = cfg.lrt_anchor
      · simp [he] at hfrom
      · simp [he] at hfrom
  have hout : find_outgoing_lrts from_s graph = [] := by
    unfold find_outgoing_lrts
    rw [List.filter_eq_nil]
    intro n hn hlrt
    have := bfs_none_no_fresh_lrt graph from_s cfg.lrt_anchor h2 n hn hlrt
    subst this
    rw [hlrt] at hlrtf
    exact absurd hlrtf (by simp)
  have hcur : _find_lrt_current from_s graph cfg.lrt_anchor = none := by
    simp [_find_lrt_current, hout]
  have hbp : _bypass_wtg_path from_s cfg.lrt_anchor cfg.lrt_anchor cfg graph =
      cfg.lrt_anchor := by
    simp [_bypass_wtg_path]
  simp [_dispatch, h1, h2, hcur, hbp]

/-- Witness: in the LRT-free junction cfgW, the transition B→A0 (template A)
emits jL_UNKNOWN in both AT conditions and uses the configured anchor L99 as
the bypass. -/
theorem c10_witness :
    _dispatch "A" "B" "A0" [] gW cfgW =
      Except.ok (template_a "B" (_gt_func "B" cfgW.stage_props)
        (build_demand "A0" "B" cfgW.stage_props)
        (apply_suffix "A0" cfgW.stage_props) "jL_UNKNOWN" cfgW.lrt_anchor "A0" false) := by
  have h := c10_jl_unknown cfgW gW "B" "A0" [] rfl rfl
    (by simp [find_nearest_lrt_from_stage, bfs_loop, bfs_scan, graphGet, pruneCheck,
      is_lrt, gW])
    (by simp [find_nearest_lrt_from_stage, bfs_loop, bfs_scan, graphGet, pruneCheck,
      is_lrt, gW])
  simpa using h

/-- Walks extend along edges: a node at hop d yields its neighbours at hop d+1. -/
theorem reach_extend (g : Graph) :
    ∀ (d : Nat) (s u n : String), u ∈ reachList g s d → n ∈ graphGet g u →
      n ∈ reachList g s (d + 1) := by
  intro d
  induction d with
  | zero =>
    intro s u n hu hn
    have h0 : reachList g s 0 = [s] := rfl
    rw [h0, List.mem_singleton] at hu
    subst hu
    have h1 : reachList g u 1 = (graphGet g u).flatMap (fun m => reachList g m 0) := rfl
    rw [h1, List.mem_flatMap]
    exact ⟨n, hn, by simp [reachList]⟩
  | succ d ih =>
    intro s u n hu hn
    have h1 : reachList g s (d + 1) =
        (graphGet g s).flatMap (fun m => reachList g m d) := rfl
    rw [h1, List.mem_flatMap] at hu
    obtain ⟨x, hx, hux⟩ := hu
    have h2 : reachList g s (d + 1 + 1) =
        (graphGet g s).flatMap (fun m => reachList g m (d + 1)) := rfl
    rw [h2, List.mem_flatMap]
    exact ⟨x, hx, ih x u n hux hn⟩

/-- The scan never forgets visited nodes. -/
theorem scanFirst_vis_mono (dist : Nat) :
    ∀ (ns vis : List String) (acc : List (String × Nat)), ∀ u ∈ vis,
      u ∈ (scanFirstLrt ns dist vis acc).1 := by
  intro ns
  induction ns with
  | nil => intro vis acc u hu; exact hu
  | cons n ns ih =>
    intro vis acc u hu
    simp only [scanFirstLrt]
    by_cases hv : n ∈ vis
    · simp only [hv, if_true]; exact ih vis acc u hu
    · simp only [hv, if_false]
      by_cases hl : is_lrt n
      · simp only [hl, if_true]; exact hu
      · simp only [hl, if_false]
        exact ih (n :: vis) (acc ++ [(n, dist + 1)]) u (List.mem_cons_of_mem _ hu)

/-- When the scan discovers no LRT, it has visited every scanned neighbour. -/
theorem scanFirst_none_covers (dist : Nat) :
    ∀ (ns vis : List String) (acc : List (String × Nat)) (vis' : List String)
      (newq : List (String × Nat)),
      scanFirstLrt ns dist vis acc = (vis', newq, none) → ∀ n ∈ ns, n ∈ vis' := by
  intro ns
  induction ns with
  | nil => intro vis acc vis' newq h n hn; simp at hn
  | cons n0 ns ih =>
    intro vis acc vis' newq h n hn
    simp only [scanFirstLrt] at h
    by_cases hv : n0 ∈ vis
    · rw [if_pos hv] at h
      rcases List.mem_cons.mp hn with rfl | hn2
      · have := scanFirst_vis_mono dist ns vis acc n hv
        rw [h] at this
        exact this
      · exact ih vis acc vis' newq h n hn2
    · rw [if_neg hv] at h
      by_cases hl : is_lrt n0
      · rw [if_pos hl] at h
        simp only [Prod.mk.injEq] at h
        exact absurd h.2.2 (by simp)
      · rw [if_neg hl] at h
        rcases List.mem_cons.mp hn with rfl | hn2
        · have := scanFirst_vis_mono dist ns (n :: vis) (acc ++ [(n, dist + 1)]) n
            (List.mem_cons_self _ _)
          rw [h] at this
          exact this
        · exact ih (n0 :: vis) (acc ++ [(n0, dist + 1)]) vis' newq h n hn2

/-- Queue entries survive the scan. -/
theorem scanFirst_acc_mono (dist : Nat) :
    ∀ (ns vis : List String) (acc : List (String × Nat)), ∀ e ∈ acc,
      e ∈ (scanFirstLrt ns dist vis acc).2.1 := by
  intro ns
  induction ns with
  | nil => intro vis acc e he; exact he
  | cons n ns ih =>
    intro vis acc e he
    simp only [scanFirstLrt]
    by_cases hv : n ∈ vis
    · simp only [hv, if_true]; exact ih vis acc e he
    · simp only [hv, if_false]
      by_cases hl : is_lrt n
      · simp only [hl, if_true]; exact he
      · simp only [hl, if_false]
        exact ih (n :: vis) (acc ++ [(n, dist + 1)]) e (by simp [he])

/-- Every queue entry the scan emits is an old one or a freshly visited
non-LRT neighbour at hop dist + 1. -/
theorem scanFirst_newq_entries (dist : Nat) :
    ∀ (ns vis : List String) (acc : List (String × Nat)),
      ∀ e ∈ (scanFirstLrt ns dist vis acc).2.1,
      e ∈ acc ∨ (e.1 ∈ ns ∧ e.2 = dist + 1 ∧ is_lrt e.1 = false ∧
        e.1 ∈ (scanFirstLrt ns dist vis acc).1) := by
  intro ns
  induction ns with
  | nil => intro vis acc e he; exact Or.inl he
  | cons n ns ih =>
    intro vis acc e he
    simp only [scanFirstLrt] at he ⊢
    by_cases hv : n ∈ vis
    · simp only [hv, if_true] at he ⊢
      rcases ih vis acc e he with h | ⟨h1, h2, h3, h4⟩
      · exact Or.inl h
      · exact Or.inr ⟨List.mem_cons_of_mem _ h1, h2, h3, h4⟩
    · simp only [hv, if_false] at he ⊢
      by_cases hl : is_lrt n
      · simp only [hl, if_true] at he ⊢
        exact Or.inl he
      · simp only [hl, if_false] at he ⊢
        rcases ih (n :: vis) (acc ++ [(n, dist + 1)]) e he with h | ⟨h1, h2, h3, h4⟩
        · rcases List.mem_append.mp h with h2 | h2
          · exact Or.inl h2
          · simp only [List.mem_singleton] at h2
            subst h2
            refine Or.inr ⟨List.mem_cons_self _ _, rfl, by simpa using hl, ?_⟩
            exact scanFirst_vis_mono dist ns (n :: vis) _ n (List.mem_cons_self _ _)
        · exact Or.inr ⟨List.mem_cons_of_mem _ h1, h2, h3, h4⟩

/-- A discovered LRT is a fresh LRT neighbour at hop dist + 1. -/
theorem scanFirst_some_shape (dist : Nat) :
    ∀ (ns vis : List String) (acc : List (String × Nat)) (v' : List String)
      (q' : List (String × Nat)) (ld : String × Nat),
      scanFirstLrt ns dist vis acc = (v', q', some ld) →
      ld.2 = dist + 1 ∧ is_lrt ld.1 = true ∧ ld.1 ∈ ns ∧ ld.1 ∉ vis := by
  intro ns
  induction ns with
  | nil => intro vis acc v' q' ld h; simp [scanFirstLrt] at h
  | cons n ns ih =>
    intro vis acc v' q' ld h
    simp only [scanFirstLrt] at h
    by_cases hv : n ∈ vis
    · simp only [hv, if_true] at h
      obtain ⟨h1, h2, h3, h4⟩ := ih vis acc v' q' ld h
      exact ⟨h1, h2, List.mem_cons_of_mem _ h3, h4⟩
    · simp only [hv, if_false] at h
      by_cases hl : is_lrt n
      · simp only [hl, if_true] at h
        simp only [Prod.mk.injEq] at h
        obtain ⟨-, -, h3⟩ := h
        obtain rfl := Option.some.inj h3
        exact ⟨rfl, hl, List.mem_cons_self _ _, hv⟩
      · simp only [hl, if_false] at h
        obtain ⟨h1, h2, h3, h4⟩ := ih (n :: vis) (acc ++ [(n, dist + 1)]) v' q' ld h
        refine ⟨h1, h2, List.mem_cons_of_mem _ h3, ?_⟩
        intro hld
        exact h4 (List.mem_cons_of_mem _ hld)

/-- The scan visits no new LRT stage (a fresh LRT ends the scan instead). -/
theorem scanFirst_no_new_lrt (dist : Nat) :
    ∀ (ns vis : List String) (acc : List (String × Nat)),
      ∀ u ∈ (scanFirstLrt ns dist vis acc).1, is_lrt u = true → u ∈ vis := by
  intro ns
  induction ns with
  | nil => intro vis acc u hu _; exact hu
  | cons n ns ih =>
    intro vis acc u hu hlrt
    simp only [scanFirstLrt] at hu
    by_cases hv : n ∈ vis
    · simp only [hv, if_true] at hu
      exact ih vis acc u hu hlrt
    · simp only [hv, if_false] at hu
      by_cases hl : is_lrt n
      · simp only [hl, if_true] at hu
        exact hu
      · simp only [hl, if_false] at hu
        rcases List.mem_cons.mp (ih (n :: vis) (acc ++ [(n, dist + 1)]) u hu hlrt)
          with rfl | h2
        · rw [hlrt] at hl; exact absurd rfl hl
        · exact h2

/-- When the scan discovers no LRT, each newly visited node was enqueued. -/
theorem scanFirst_none_enqueued (dist : Nat) :
    ∀ (ns vis : List String) (acc : List (String × Nat)) (vis' : List String)
      (newq : List (String × Nat)),
      scanFirstLrt ns dist vis acc = (vis', newq, none) →
      ∀ u ∈ vis', u ∈ vis ∨ (u, dist + 1) ∈ newq := by
  intro ns
  induction ns with
  | nil =>
    intro vis acc vis' newq h u hu
    simp only [scanFirstLrt, Prod.mk.injEq] at h
    obtain ⟨rfl, -, -⟩ := h
    exact Or.inl hu
  | cons n ns ih =>
    intro vis acc vis' newq h u hu
    simp only [scanFirstLrt] at h
    by_cases hv : n ∈ vis
    · rw [if_pos hv] at h
      exact ih vis acc vis' newq h u hu
    · rw [if_neg hv] at h
      by_cases hl : is_lrt n
      · rw [if_pos hl] at h
        simp only [Prod.mk.injEq] at h
        exact absurd h.2.2 (by simp)
      · rw [if_neg hl] at h
        rcases ih (n :: vis) (acc ++ [(n, dist + 1)]) vis' newq h u hu with h2 | h2
        · rcases List.mem_cons.mp h2 with rfl | h3
          · right
            have hacc : (u, dist + 1) ∈ ((acc ++ [(u, dist + 1)]) : List (String × Nat)) := by
              simp
            have := scanFirst_acc_mono dist ns (u :: vis) (acc ++ [(u, dist + 1)])
              (u, dist + 1) hacc
            rw [h] at this
            exact this
          · exact Or.inl h3
        · exact Or.inr h2

/-- Budgeted coverage: in a state where every visited node is queued or fully
expanded and all queue distances are at most D, any walk from a visited node
ends visited or re-anchors at a queue entry within budget. -/
theorem cover_walk (g : Graph) (q' : List (String × Nat)) (vis' : List String) (D : Nat)
    (hI3 : ∀ u ∈ vis', (∃ e ∈ q', e.1 = u) ∨ (∀ n ∈ graphGet g u, n ∈ vis'))
    (hbound : ∀ e ∈ q', e.2 ≤ D) :
    ∀ (k : Nat) (u v : String), u ∈ vis' → v ∈ reachList g u k →
      v ∈ vis' ∨ ∃ e ∈ q', ∃ j, v ∈ reachList g e.1 j ∧ e.2 + j ≤ D + k := by
  intro k
  induction k with
  | zero =>
    intro u v hu hv
    have h0 : reachList g u 0 = [u] := rfl
    rw [h0, List.mem_singleton] at hv
    subst hv
    exact Or.inl hu
  | succ k ih =>
    intro u v hu hv
    rcases hI3 u hu with ⟨e, he, heq⟩ | hexp
    · right
      refine ⟨e, he, k + 1, ?_, ?_⟩
      · rw [heq]; exact hv
      · have := hbound e he
        omega
    · have h1 : reachList g u (k + 1) =
          (graphGet g u).flatMap (fun m => reachList g m k) := rfl
      rw [h1, List.mem_flatMap] at hv
      obtain ⟨n, hn, hvn⟩ := hv
      rcases ih n v (hexp n hn) hvn with h | ⟨e, he, j, hj1, hj2⟩
      · exact Or.inl h
      · exact Or.inr ⟨e, he, j, hj1, by omega⟩

/-- Popping the head and appending entries one hop deeper preserves the sorted
and at-most-one-apart queue discipline. -/
theorem queue_order_step (current : String) (dist : Nat)
    (qrest newq : List (String × Nat))
    (hsorted : List.Pairwise (fun a b : String × Nat => a.2 ≤ b.2)
      ((current, dist) :: qrest))
    (hspread : ∀ a ∈ (current, dist) :: qrest, ∀ b ∈ (current, dist) :: qrest,
      a.2 ≤ b.2 + 1)
    (hnewq : ∀ e ∈ newq, e.2 = dist + 1) :
    List.Pairwise (fun a b : String × Nat => a.2 ≤ b.2) (qrest ++ newq) ∧
    (∀ a ∈ qrest ++ newq, ∀ b ∈ qrest ++ newq, a.2 ≤ b.2 + 1) := by
  obtain hhead := List.pairwise_cons.mp hsorted
  constructor
  · rw [List.pairwise_append]
    refine ⟨hhead.2, ?_, ?_⟩
    · apply List.pairwise_of_forall_mem_list
      intro a ha b hb
      rw [hnewq a ha, hnewq b hb]
    · intro a ha b hb
      have h1 : a.2 ≤ dist + 1 :=
        hspread a (List.mem_cons_of_mem _ ha) (current, dist) (List.mem_cons_self _ _)
      rw [hnewq b hb]
      exact h1
  · intro a ha b hb
    rcases List.mem_append.mp ha with ha2 | ha2 <;>
      rcases List.mem_append.mp hb with hb2 | hb2
    · exact hspread a (List.mem_cons_of_mem _ ha2) b (List.mem_cons_of_mem _ hb2)
    · have h1 : a.2 ≤ dist + 1 :=
        hspread a (List.mem_cons_of_mem _ ha2) (current, dist) (List.mem_cons_self _ _)
      rw [hnewq b hb2]
      omega
    · have h1 : dist ≤ b.2 := hhead.1 b hb2
      rw [hnewq a ha2]
      omega
    · rw [hnewq a ha2, hnewq b hb2]
      omega

/-- One BFS step with no discovery preserves the whole queue invariant. -/
theorem queueInv_step (g : Graph) (s current : String) (dist : Nat)
    (vis vis' : List String) (qrest newq : List (String × Nat))
    (hinv : QueueInv g s vis ((current, dist) :: qrest))
    (hscan : scanFirstLrt (graphGet g current) dist vis [] = (vis', newq, none)) :
    QueueInv g s vis' (qrest ++ newq) := by
  obtain ⟨hs, hq1, hq2, hq3, hq4, hq5, hq6, hq7⟩ := hinv
  have hvm : ∀ u ∈ vis, u ∈ vis' := by
    intro u hu
    have := scanFirst_vis_mono dist (graphGet g current) vis [] u hu
    rw [hscan] at this
    exact this
  have hcov : ∀ n ∈ graphGet g current, n ∈ vis' :=
    scanFirst_none_covers dist (graphGet g current) vis [] vis' newq hscan
  have hne : ∀ e ∈ newq, e.1 ∈ graphGet g current ∧ e.2 = dist + 1 ∧
      is_lrt e.1 = false ∧ e.1 ∈ vis' := by
    intro e he
    have h0 := scanFirst_newq_entries dist (graphGet g current) vis [] e
      (by rw [hscan]; exact he)
    rcases h0 with h1 | h1
    · simp at h1
    · rw [hscan] at h1
      exact h1
  have hnl : ∀ u ∈ vis', is_lrt u = true → u ∈ vis := by
    intro u hu hlrt
    have h0 := scanFirst_no_new_lrt dist (graphGet g current) vis [] u
      (by rw [hscan]; exact hu) hlrt
    exact h0
  have henq : ∀ u ∈ vis', u ∈ vis ∨ (u, dist + 1) ∈ newq :=
    scanFirst_none_enqueued dist (graphGet g current) vis [] vis' newq hscan
  have hcur_vis : current ∈ vis := hq1 (current, dist) (List.mem_cons_self _ _)
  have hcur_reach : current ∈ reachList g s dist := hq2 (current, dist)
    (List.mem_cons_self _ _)
  have hI3' : ∀ u ∈ vis', (∃ e ∈ qrest ++ newq, e.1 = u) ∨
      (∀ n ∈ graphGet g u, n ∈ vis') := by
    intro u hu
    rcases henq u hu with huv | hue
    · rcases hq3 u huv with ⟨e, he, heq⟩ | hexp
      · rcases List.mem_cons.mp he with rfl | he2
        · right
          simp only at heq
          rw [← heq]
          exact hcov
        · exact Or.inl ⟨e, List.mem_append_left _ he2, heq⟩
      · exact Or.inr (fun n hn => hvm n (hexp n hn))
    · exact Or.inl ⟨(u, dist + 1), List.mem_append_right _ hue, rfl⟩
  have hbound' : ∀ e ∈ qrest ++ newq, e.2 ≤ dist + 1 := by
    intro e he
    rcases List.mem_append.mp he with h2 | h2
    · exact hq6 e (List.mem_cons_of_mem _ h2) (current, dist) (List.mem_cons_self _ _)
    · rw [(hne e h2).2.1]
  have horder := queue_order_step current dist qrest newq hq5 hq6
    (fun e he => (hne e he).2.1)
  refine ⟨hvm s hs, ?_, ?_, hI3', ?_, horder.1, horder.2, ?_⟩
  · intro e he
    rcases List.mem_append.mp he with h2 | h2
    · exact hvm e.1 (hq1 e (List.mem_cons_of_mem _ h2))
    · exact (hne e h2).2.2.2
  · intro e he
    rcases List.mem_append.mp he with h2 | h2
    · exact hq2 e (List.mem_cons_of_mem _ h2)
    · obtain ⟨hn1, hn2, -, -⟩ := hne e h2
      rw [hn2]
      exact reach_extend g dist s current e.1 hcur_reach hn1
  · intro u hu hlrt
    exact hq4 u (hnl u hu hlrt) hlrt
  · intro v m hv
    rcases hq7 v m hv with hvv | ⟨e, he, j, hj1, hj2⟩
    · exact Or.inl (hvm v hvv)
    · rcases List.mem_cons.mp he with rfl | he2
      · simp only at hj1 hj2
        cases j with
        | zero =>
          have h0 : reachList g current 0 = [current] := rfl
          rw [h0, List.mem_singleton] at hj1
          subst hj1
          exact Or.inl (hvm _ hcur_vis)
        | succ j =>
          have h1 : reachList g current (j + 1) =
              (graphGet g current).flatMap (fun m => reachList g m j) := rfl
          rw [h1, List.mem_flatMap] at hj1
          obtain ⟨n, hn, hvn⟩ := hj1
          rcases cover_walk g (qrest ++ newq) vis' (dist + 1) hI3' hbound' j n v
            (hcov n hn) hvn with h | ⟨e', he', j', hj1', hj2'⟩
          · exact Or.inl h
          · exact Or.inr ⟨e', he', j', hj1', by omega⟩
      · exact Or.inr ⟨e, List.mem_append_left _ he2, j, hj1, hj2⟩

/-- Soundness, minimality and completeness of the first-discovered-LRT search
from any state satisfying the queue invariant: a none answer means no LRT other
than the start is reachable, and a some answer is a reachable non-start LRT
whose recorded hop count is minimal among all reachable non-start LRT stages. -/
theorem firstLrtSearch_correct (g : Graph) (s : String) :
    ∀ (vis : List String) (q : List (String × Nat)), QueueInv g s vis q →
      (firstLrtSearch g vis q = none →
        ∀ v m, is_lrt v = true → v ≠ s → v ∈ reachList g s m → False) ∧
      (∀ L dL, firstLrtSearch g vis q = some (L, dL) →
        is_lrt L = true ∧ L ≠ s ∧ L ∈ reachList g s dL ∧
        ∀ v m, is_lrt v = true → v ≠ s → v ∈ reachList g s m → dL ≤ m) := by
  intro vis q
  induction vis, q using firstLrtSearch.induct g with
  | case1 vis =>
    intro hinv
    obtain ⟨hs, -, -, -, hq4, -, -, hq7⟩ := hinv
    constructor
    · intro _ v m hlrt hne hv
      rcases hq7 v m hv with hvv | ⟨e, he, -⟩
      · exact hne (hq4 v hvv hlrt)
      · simp at he
    · intro L dL h
      simp [firstLrtSearch] at h
  | case2 vis current dist qrest v' q' ld hscan =>
    intro hinv
    have hfls : firstLrtSearch g vis ((current, dist) :: qrest) = some ld := by
      simp only [firstLrtSearch]
      split
      next a b ld2 heq =>
        rw [hscan] at heq
        simp only [Prod.mk.injEq, Option.some.injEq] at heq
        rw [heq.2.2]
      next vis2 newq2 heq =>
        rw [hscan] at heq
        simp at heq
    obtain ⟨hs, hq1, hq2, hq3, hq4, hq5, hq6, hq7⟩ := hinv
    obtain ⟨hld2, hldlrt, hldmem, hldfresh⟩ :=
      scanFirst_some_shape dist (graphGet g current) vis [] v' q' ld hscan
    have hcur_reach : current ∈ reachList g s dist :=
      hq2 (current, dist) (List.mem_cons_self _ _)
    constructor
    · intro h
      rw [hfls] at h
      exact absurd h (by simp)
    · intro L dL h
      rw [hfls] at h
      obtain rfl : ld = (L, dL) := Option.some.inj h
      simp only at hld2 hldlrt hldmem hldfresh
      refine ⟨hldlrt, fun he => hldfresh (he ▸ hs), ?_, ?_⟩
      · rw [hld2]
        exact reach_extend g dist s current L hcur_reach hldmem
      · intro v m hlrt hne hv
        by_contra hlt
        have hm : m ≤ dist := by omega
        rcases hq7 v m hv with hvv | ⟨e, he, j, hj1, hj2⟩
        · exact hne (hq4 v hvv hlrt)
        · have hedist : dist ≤ e.2 := by
            rcases List.mem_cons.mp he with rfl | he2
            · exact Nat.le_refl _
            · exact (List.pairwise_cons.mp hq5).1 e he2
          have hj0 : j = 0 := by omega
          subst hj0
          have h0 : reachList g e.1 0 = [e.1] := rfl
          rw [h0, List.mem_singleton] at hj1
          subst hj1
          exact hne (hq4 _ (hq1 e he) hlrt)
  | case3 vis current dist qrest vis' newq hscan ih =>
    intro hinv
    have hstep := queueInv_step g s current dist vis vis' qrest newq hinv hscan
    have hfls : firstLrtSearch g vis ((current, dist) :: qrest) =
        firstLrtSearch g vis' (qrest ++ newq) := by
      simp only [firstLrtSearch]
      split
      next a b ld2 heq =>
        rw [hscan] at heq
        simp at heq
      next vis2 newq2 heq =>
        rw [hscan] at heq
        simp only [Prod.mk.injEq] at heq
        rw [← heq.1, ← heq.2.1]
    rw [hfls]
    exact ih hstep

/-- With no nearest LRT recorded yet, the source scan and the discovery scan
agree step for step when nothing is discovered. -/
theorem scan_rel_none (dist : Nat) :
    ∀ (ns vis : List String) (acc : List (String × Nat)) (vis1 : List String)
      (acc1 : List (String × Nat)),
      scanFirstLrt ns dist vis acc = (vis1, acc1, none) →
      bfs_scan ns dist vis acc none = (vis1, acc1, none) := by
  intro ns
  induction ns with
  | nil =>
    intro vis acc vis1 acc1 h
    simp only [scanFirstLrt, Prod.mk.injEq] at h
    simp only [bfs_scan, Prod.mk.injEq]
    exact ⟨h.1, h.2.1, trivial⟩
  | cons n ns ih =>
    intro vis acc vis1 acc1 h
    simp only [scanFirstLrt] at h
    simp only [bfs_scan]
    by_cases hv : n ∈ vis
    · rw [if_pos hv] at h
      rw [if_pos hv]
      exact ih vis acc vis1 acc1 h
    · rw [if_neg hv] at h
      rw [if_neg hv]
      by_cases hl : is_lrt n
      · rw [if_pos hl] at h
        simp only [Prod.mk.injEq] at h
        exact absurd h.2.2 (by simp)
      · rw [if_neg hl] at h
        rw [if_neg hl]
        exact ih (n :: vis) (acc ++ [(n, dist + 1)]) vis1 acc1 h

/-- With no nearest LRT recorded yet, the source scan records exactly the
discovery scan's first fresh LRT. -/
theorem scan_rel_some (dist : Nat) :
    ∀ (ns vis : List String) (acc : List (String × Nat)) (v1 : List String)
      (q1 : List (String × Nat)) (ld : String × Nat),
      scanFirstLrt ns dist vis acc = (v1, q1, some ld) →
      (bfs_scan ns dist vis acc none).2.2 = some ld := by
  intro ns
  induction ns with
  | nil =>
    intro vis acc v1 q1 ld h
    simp [scanFirstLrt] at h
  | cons n ns ih =>
    intro vis acc v1 q1 ld h
    simp only [scanFirstLrt] at h
    simp only [bfs_scan]
    by_cases hv : n ∈ vis
    · rw [if_pos hv] at h
      rw [if_pos hv]
      exact ih vis acc v1 q1 ld h
    · rw [if_neg hv] at h
      rw [if_neg hv]
      by_cases hl : is_lrt n
      · rw [if_pos hl] at h
        rw [if_pos hl]
        simp only [Prod.mk.injEq] at h
        obtain rfl := Option.some.inj h.2.2
        exact bfs_scan_nearest_stable dist ns (n :: vis) acc (n, dist + 1) (Nat.le_refl _)
      · rw [if_neg hl] at h
        rw [if_neg hl]
        exact ih (n :: vis) (acc ++ [(n, dist + 1)]) v1 q1 ld h

/-- The source BFS returns exactly the first LRT the discovery search finds,
whenever the queue distances are sorted and spread by at most one. -/
theorem bfs_loop_eq_firstLrtSearch (g : Graph) :
    ∀ (vis : List String) (q : List (String × Nat)),
      List.Pairwise (fun a b : String × Nat => a.2 ≤ b.2) q →
      (∀ a ∈ q, ∀ b ∈ q, a.2 ≤ b.2 + 1) →
      bfs_loop g vis q none = (firstLrtSearch g vis q).map Prod.fst := by
  intro vis q
  induction vis, q using firstLrtSearch.induct g with
  | case1 vis => intro _ _; simp [bfs_loop, firstLrtSearch]
  | case2 vis current dist qrest v' q' ld hscan =>
    intro hsorted hspread
    have hfls : firstLrtSearch g vis ((current, dist) :: qrest) = some ld := by
      simp only [firstLrtSearch]
      split
      next a b ld2 heq =>
        rw [hscan] at heq
        simp only [Prod.mk.injEq, Option.some.injEq] at heq
        rw [heq.2.2]
      next vis2 newq2 heq =>
        rw [hscan] at heq
        simp at heq
    rw [hfls]
    obtain ⟨hld2, -, -, -⟩ :=
      scanFirst_some_shape dist (graphGet g current) vis [] v' q' ld hscan
    simp only [bfs_loop]
    rw [if_neg (by simp [pruneCheck])]
    have hbn : (bfs_scan (graphGet g current) dist vis [] none).2.2 = some ld :=
      scan_rel_some dist (graphGet g current) vis [] v' q' ld hscan
    rcases hb : bfs_scan (graphGet g current) dist vis [] none with ⟨bv, bq, bn⟩
    rw [hb] at hbn
    simp only at hbn
    subst hbn
    have hbound : ∀ e ∈ qrest ++ bq, ld.2 ≤ e.2 + 1 := by
      intro e he
      rcases List.mem_append.mp he with h2 | h2
      · have : dist ≤ e.2 := (List.pairwise_cons.mp hsorted).1 e h2
        omega
      · have := bfs_scan_acc_entries dist (graphGet g current) vis [] none e
          (by rw [hb]; exact h2)
        rcases this with h3 | h3
        · simp at h3
        · omega
    exact bfs_loop_some g (unseenCount g bv + (qrest ++ bq).length) bv (qrest ++ bq) ld
      (Nat.le_refl _) hbound
  | case3 vis current dist qrest vis' newq hscan ih =>
    intro hsorted hspread
    have hfls : firstLrtSearch g vis ((current, dist) :: qrest) =
        firstLrtSearch g vis' (qrest ++ newq) := by
      simp only [firstLrtSearch]
      split
      next a b ld2 heq =>
        rw [hscan] at heq
        simp at heq
      next vis2 newq2 heq =>
        rw [hscan] at heq
        simp only [Prod.mk.injEq] at heq
        rw [← heq.1, ← heq.2.1]
    rw [hfls]
    have hb := scan_rel_none dist (graphGet g current) vis [] vis' newq hscan
    simp only [bfs_loop]
    rw [if_neg (by simp [pruneCheck])]
    rw [hb]
    have hnewq : ∀ e ∈ newq, e.2 = dist + 1 := by
      intro e he
      have h0 := scanFirst_newq_entries dist (graphGet g current) vis [] e
        (by rw [hscan]; exact he)
      rcases h0 with h1 | h1
      · simp at h1
      · exact h1.2.1
    have horder := queue_order_step current dist qrest newq hsorted hspread hnewq
    exact ih horder.1 horder.2

/-- The BFS start state satisfies the queue invariant. -/
theorem queueInv_init (g : Graph) (s : String) : QueueInv g s [s] [(s, 0)] := by
  refine ⟨by simp, by simp, ?_, ?_, by simp, by simp, by simp, ?_⟩
  · intro e he
    simp only [List.mem_singleton] at he
    subst he
    simp [reachList]
  · intro u hu
    simp only [List.mem_singleton] at hu
    subst hu
    exact Or.inl ⟨(u, 0), List.mem_singleton_self _, rfl⟩
  · intro v m hv
    exact Or.inr ⟨(s, 0), List.mem_singleton_self _, m, hv, by omega⟩

/-- C6: find_nearest_lrt_from_stage is a breadth-first search excluding the
start stage: it returns exactly the first LRT stage discovered in BFS order
(ties at equal minimal depth go to the first one discovered), that stage is an
LRT node distinct from the start, reachable at some positive hop count d which
is minimal among all reachable LRT stages other than the start, and the search
returns none precisely when no such LRT stage is reachable. -/
theorem c6_nearest_lrt_bfs (g : Graph) (s la : String) :
    find_nearest_lrt_from_stage s g la =
      (firstLrtSearch g [s] [(s, 0)]).map Prod.fst ∧
    (find_nearest_lrt_from_stage s g la = none →
      ∀ v m, is_lrt v = true → v ≠ s → v ∈ reachList g s m → False) ∧
    (∀ L, find_nearest_lrt_from_stage s g la = some L →
      is_lrt L = true ∧ L ≠ s ∧
      ∃ d, 0 < d ∧ L ∈ reachList g s d ∧
        ∀ v m, is_lrt v = true → v ≠ s → v ∈ reachList g s m → d ≤ m) := by
  have hinv := queueInv_init g s
  have hmain := firstLrtSearch_correct g s [s] [(s, 0)] hinv
  have heq : find_nearest_lrt_from_stage s g la =
      (firstLrtSearch g [s] [(s, 0)]).map Prod.fst := by
    show bfs_loop g [s] [(s, 0)] none = _
    exact bfs_loop_eq_firstLrtSearch g [s] [(s, 0)] (by simp) (by simp)
  refine ⟨heq, ?_, ?_⟩
  · intro hnone
    rw [heq] at hnone
    rcases hfl : firstLrtSearch g [s] [(s, 0)] with _ | ⟨L, dL⟩
    · exact hmain.1 hfl
    · rw [hfl] at hnone
      simp at hnone
  · intro L hsome
    rw [heq] at hsome
    rcases hfl : firstLrtSearch g [s] [(s, 0)] with _ | ⟨L', dL⟩
    · rw [hfl] at hsome
      simp at hsome
    · rw [hfl] at hsome
      simp only [Option.map, Option.some.injEq] at hsome
      subst hsome
      obtain ⟨h1, h2, h3, h4⟩ := hmain.2 L' dL hfl
      refine ⟨h1, h2, dL, ?_, h3, h4⟩
      cases dL with
      | zero =>
        have h0 : reachList g s 0 = [s] := rfl
        rw [h0, List.mem_singleton] at h3
        exact absurd h3 h2
      | succ d => omega
